import Mathlib

/-!
Verification of the `c.unit.test` harness (single-header C unit-test framework,
`src/test/unit/UnitTest.h`) against its natural-language specification.

The C code is shallowly embedded: C strings become `List Nat` (byte values,
the terminating NUL is the end of the list), C `int` becomes `Int`, `size_t`
becomes `Nat`, and the two fatal exits of the allocation wrappers (codes 120
and 122) become the `Except Nat` error monad.  Definitions are direct
translations of the corresponding C functions and keep their names.
-/

set_option autoImplicit false

/-- Bytes of an ASCII string literal, used for the C string constants.
Individual byte values appear as plain numerals throughout: `124` is the
pipe delimiter, `92` the backslash escape, `31` the unit-separator frame
marker, `34` the double quote, `38` the ampersand. -/
def strBytes (s : String) : List Nat := s.toList.map Char.toNat

/-- C `isspace` on a byte (C locale): space, tab, newline, vtab, formfeed, cr. -/
def isSpaceByte (c : Nat) : Bool := c == 32 || (decide (9 ≤ c) && decide (c ≤ 13))

/-- C `isdigit` on a byte. -/
def isDigitByte (c : Nat) : Bool := decide (48 ≤ c) && decide (c ≤ 57)

/-- C `tolower` on a byte (C locale, ASCII letters only). -/
def tolowerByte (c : Nat) : Nat := if 65 ≤ c ∧ c ≤ 90 then c + 32 else c

/-- Digit-accumulation loop for decimal printing, structurally recursive on a
fuel argument so that it evaluates inside the kernel. -/
def natToDecAux : Nat → Nat → List Nat → List Nat
  | 0, _, acc => acc
  | fuel + 1, n, acc =>
      if n < 10 then (48 + n) :: acc
      else natToDecAux fuel (n / 10) ((48 + n % 10) :: acc)

/-- Decimal digit bytes of a natural number, most significant first, as
printed by `printf` `%d` for a non-negative value (`0` prints as `"0"`). -/
def natToDec (n : Nat) : List Nat := natToDecAux (n + 1) n []

/-- Decimal bytes of an integer as printed by `printf` `%d`
(`45` is the minus sign). -/
def intToDec (i : Int) : List Nat :=
  if i < 0 then 45 :: natToDec i.natAbs else natToDec i.toNat

/-- Value of the leading run of decimal digits, accumulator style
(the digit loop inside C `atoi`). -/
def digitsValAux : List Nat → Nat → Nat
  | [], acc => acc
  | c :: rest, acc =>
      if isDigitByte c then digitsValAux rest (acc * 10 + (c - 48)) else acc

/-- Model of C `atoi`: skip whitespace, optional sign (`43` is `+`, `45` is
`-`), then the leading digits. -/
def atoiModel (s : List Nat) : Int :=
  match s.dropWhile isSpaceByte with
  | [] => 0
  | c :: rest =>
      if c = 43 then (digitsValAux rest 0 : Int)
      else if c = 45 then -(digitsValAux rest 0 : Int)
      else (digitsValAux (c :: rest) 0 : Int)

/-! ## Result model and IPC codec (`UnitTest.h`, sections 2 and 8) -/

/-- One assertion failure record (`_UT_AssertionFailure`). String fields are
byte lists; `line` is a C `int`. The `next` pointer becomes list structure. -/
structure _UT_AssertionFailure where
  file : List Nat
  line : Int
  condition_str : List Nat
  expected_str : List Nat
  actual_str : List Nat
deriving DecidableEq, Repr

/-- The part of `_UT_TestResult` carried by the serialized frame: the status
(stored as a C `int`) and the failure list.  The suite/test name fields are
assigned from the test descriptor on the parent side and the duration and
captured-output fields are never serialized, so they are not modelled. -/
structure _UT_TestResult where
  status : Int
  failures : List _UT_AssertionFailure
deriving DecidableEq, Repr

/-- The freshly `calloc`ed in-flight result created at child-mode entry. -/
def emptyTestResult : _UT_TestResult := { status := 0, failures := [] }

/-- `_UT_record_failure`: the assertion sink.  It links the new failure node
at the HEAD of the in-flight result's failure list. -/
def _UT_record_failure (res : _UT_TestResult) (file : List Nat) (line : Int)
    (cond_str exp_str act_str : List Nat) : _UT_TestResult :=
  { res with failures := ⟨file, line, cond_str, exp_str, act_str⟩ :: res.failures }

/-- Run a sequence of calls to the assertion sink against a result. -/
def runSink (res : _UT_TestResult) (calls : List _UT_AssertionFailure) : _UT_TestResult :=
  calls.foldl
    (fun r f => _UT_record_failure r f.file f.line f.condition_str f.expected_str f.actual_str)
    res

/-- `_UT_serialize_string_escaped`: prefix `|` (124) and `\` (92) with `\`. -/
def _UT_serialize_string_escaped : List Nat → List Nat
  | [] => []
  | c :: rest =>
      if c = 124 ∨ c = 92 then 92 :: c :: _UT_serialize_string_escaped rest
      else c :: _UT_serialize_string_escaped rest

/-- The frame marker byte `_UT_SERIALIZATION_MARKER` (unit separator, 0x1F). -/
def _UT_SERIALIZATION_MARKER : Nat := 31

/-- The record key `"status="`. -/
def _UT_KEY_STATUS : List Nat := strBytes "status="

/-- The record key `"failure="`. -/
def _UT_KEY_FAILURE : List Nat := strBytes "failure="

/-- The bytes of one `failure=` record as written by `_UT_serialize_result`
(without the trailing frame marker). -/
def serializeFailureLine (f : _UT_AssertionFailure) : List Nat :=
  _UT_KEY_FAILURE ++ _UT_serialize_string_escaped f.file ++ [124] ++ intToDec f.line
    ++ [124] ++ _UT_serialize_string_escaped f.condition_str
    ++ [124] ++ _UT_serialize_string_escaped f.expected_str
    ++ [124] ++ _UT_serialize_string_escaped f.actual_str

/-- The failure records of the frame, walked from the list head, each
followed by the frame marker. -/
def serializeFailures : List _UT_AssertionFailure → List Nat
  | [] => []
  | f :: rest => serializeFailureLine f ++ [31] ++ serializeFailures rest

/-- `_UT_serialize_result`: `status=<d>\x1f` then one `failure=` record per
list node then `end_of_data\x1f`. -/
def _UT_serialize_result (r : _UT_TestResult) : List Nat :=
  _UT_KEY_STATUS ++ intToDec r.status ++ [31]
    ++ serializeFailures r.failures ++ strBytes "end_of_data" ++ [31]

/-- `_UT_get_next_token`: copy bytes from `src` into a buffer holding at most
`cap` bytes, unescaping `\`; stop at NUL or at an unescaped `|` (consumed).
Returns the token and the remaining input. -/
def _UT_get_next_token (cap : Nat) : List Nat → List Nat × List Nat
  | [] => ([], [])
  | c :: rest =>
      if c = 0 then ([], c :: rest)
      else if c = 124 then ([], rest)
      else if cap = 0 then ([], c :: rest)
      else if c = 92 then
        match rest with
        | [] => ([92], [])
        | d :: rest2 =>
            if d = 0 then ([92], d :: rest2)
            else
              let p := _UT_get_next_token (cap - 1) rest2
              (d :: p.1, p.2)
      else
        let p := _UT_get_next_token (cap - 1) rest
        (c :: p.1, p.2)

/-- C `strchr(s, b)` splitting: bytes strictly before the first occurrence of
`b`, and the bytes after it; `none` if `b` does not occur. -/
def splitAtFirst (b : Nat) : List Nat → Option (List Nat × List Nat)
  | [] => none
  | c :: rest =>
      if c = b then some ([], rest)
      else (splitAtFirst b rest).map (fun p => (c :: p.1, p.2))

/-- The line-splitting loop of `_UT_deserialize_result`: cut the buffer at
each frame marker (31); a trailing segment without a marker is still a line,
a trailing marker ends the loop. -/
def splitOnMarker : List Nat → List (List Nat)
  | [] => []
  | c :: rest =>
      if c = 31 then [] :: splitOnMarker rest
      else
        match splitOnMarker rest with
        | [] => [[c]]
        | seg :: segs => (c :: seg) :: segs

/-- Field parsing of one `failure=` record (the body of the second branch of
`_UT_deserialize_result`): file token, then `strchr`/`atoi` for the line
number (left at the `calloc` zero if no `|` is found), then three more
tokens.  The C field buffer holds 2048 bytes, so each token is capped at
2047 bytes. -/
def parseFailureFields (part : List Nat) : _UT_AssertionFailure :=
  let p1 := _UT_get_next_token 2047 part
  let ln :=
    match splitAtFirst 124 p1.2 with
    | some q => (atoiModel q.1, q.2)
    | none => ((0 : Int), p1.2)
  let p2 := _UT_get_next_token 2047 ln.2
  let p3 := _UT_get_next_token 2047 p2.2
  let p4 := _UT_get_next_token 2047 p3.2
  ⟨p1.1, ln.1, p2.1, p3.1, p4.1⟩

/-- Processing of one line by `_UT_deserialize_result`: `status=` sets the
status via `atoi`, `failure=` appends a parsed record at the tail, anything
else (such as `end_of_data` or test output) is ignored. -/
def parseLine (r : _UT_TestResult) (line : List Nat) : _UT_TestResult :=
  if line.take 7 = _UT_KEY_STATUS then
    { r with status := atoiModel (line.drop 7) }
  else if line.take 8 = _UT_KEY_FAILURE then
    { r with failures := r.failures ++ [parseFailureFields (line.drop 8)] }
  else r

/-- `_UT_deserialize_result`: split the buffer at frame markers, truncate each
line to the 4096-byte line buffer (4095 content bytes), and process the lines
in order starting from the `calloc`ed result. -/
def _UT_deserialize_result (buffer : List Nat) : _UT_TestResult :=
  ((splitOnMarker buffer).map (List.take 4095)).foldl parseLine emptyTestResult

/-! ## Levenshtein distance and similarity (`UnitTest.h`, section 9 helpers) -/

/-- `_UT_min3`: minimum of three C ints (all values here are non-negative). -/
def _UT_min3 (a b c : Nat) : Nat :=
  if a < b then (if a < c then a else c) else (if b < c then b else c)

/-- Inner loop of `_UT_levenshtein_distance`: given the current character `a`
of `s1`, the rest of `s2`, the corresponding suffix of the previous row `v0`
(so that its head is `v0[j]` and the head of its tail is `v0[j+1]`), and the
previously computed cell `v1[j]`, produce the cells `v1[j+1], ...` of the new
row. -/
def levRowAux (a : Nat) : List Nat → List Nat → Nat → List Nat
  | b :: s2rest, v0j :: v0rest, prev =>
      let cost := if tolowerByte a = tolowerByte b then 0 else 1
      let nxt := _UT_min3 (prev + 1) (v0rest.headD 0 + 1) (v0j + cost)
      nxt :: levRowAux a s2rest v0rest nxt
  | _, _, _ => []

/-- Outer loop of `_UT_levenshtein_distance`: one row per character of `s1`;
`v1` is the buffer holding the last row written (`calloc` zeroes before the
first iteration), which the function reads its result from. -/
def levLoop (s2 : List Nat) : List Nat → List Nat → Nat → List Nat → List Nat
  | [], _v0, _i, v1 => v1
  | a :: s1rest, v0, i, _v1 =>
      let nv := (i + 1) :: levRowAux a s2 v0 (i + 1)
      levLoop s2 s1rest nv (i + 1) nv

/-- `_UT_levenshtein_distance` (non-NULL arguments; the NULL guard returning
9999 has no counterpart for byte lists).  Note the translated C reads
`v1[s2len]` after the loop, so for an empty `s1` it returns the `calloc`
zero, not `s2len`. -/
def _UT_levenshtein_distance (s1 s2 : List Nat) : Nat :=
  (levLoop s2 s1 (List.range (s2.length + 1)) 0
    (List.replicate (s2.length + 1) 0)).getD s2.length 0

/-- The textbook case-insensitive edit-distance table on prefixes:
`levT s1 s2 i j` is the distance between the first `i` bytes of `s1` and the
first `j` bytes of `s2`.  Used as the specification the DP loop is proved
equal to (for non-empty `s1`). -/
def levT (s1 s2 : List Nat) : Nat → Nat → Nat
  | 0, j => j
  | i + 1, 0 => i + 1
  | i + 1, j + 1 =>
      let cost := if tolowerByte (s1.getD i 0) = tolowerByte (s2.getD j 0) then 0 else 1
      _UT_min3 (levT s1 s2 (i + 1) j + 1) (levT s1 s2 i (j + 1) + 1) (levT s1 s2 i j + cost)
termination_by i j => (i, j)

/-- Number of positions `k < i` where `s1` and `s2` differ case-insensitively
(used to state the single-edit property). -/
def mismatchCount (s1 s2 : List Nat) : Nat → Nat
  | 0 => 0
  | i + 1 =>
      mismatchCount s1 s2 i
        + (if tolowerByte (s1.getD i 0) = tolowerByte (s2.getD i 0) then 0 else 1)

/-- `_UT_calculate_similarity_ratio`, with C `float` arithmetic idealized as
exact rational arithmetic (the claims about it allow floating-point
tolerance). -/
def _UT_calculate_similarity_ratio_q (s1 s2 : List Nat) : ℚ :=
  if s1.length = 0 ∧ s2.length = 0 then 1
  else
    let max_len := max s1.length s2.length
    if max_len = 0 then 1
    else 1 - (_UT_levenshtein_distance s1 s2 : ℚ) / (max_len : ℚ)

/-! ## Assertion-message extraction and death-test evaluation -/

/-- C `strstr`: index of the first occurrence of `needle` in `hay`. -/
def strstrIdx (hay needle : List Nat) : Option Nat :=
  (List.range (hay.length + 1)).find? (fun i => (hay.drop i).take needle.length == needle)

/-- Backward scan of `_UT_extract_assert_message`: from position `p`, walk
left while the position is after the start and does not hold `"` (34). -/
def scanBackToQuote (s : List Nat) : Nat → Nat
  | 0 => 0
  | j + 1 => if s.getD (j + 1) 0 = 34 then j + 1 else scanBackToQuote s j

/-- Backward scan of `_UT_extract_assert_message` over whitespace. -/
def scanBackNonSpace (s : List Nat) : Nat → Nat
  | 0 => 0
  | j + 1 => if isSpaceByte (s.getD (j + 1) 0) then scanBackNonSpace s j else j + 1

/-- `_UT_extract_assert_message`: locate `" on file "`, scan back to the
closing and opening quotes of the custom message, check the preceding
non-space bytes are `&&` (38), and return the bytes between the quotes.
(The C pointer `end_quote - 1` one before the buffer start is clamped to
index 0 here; on such inputs the `&&` check fails in both.) -/
def _UT_extract_assert_message (s : List Nat) : Option (List Nat) :=
  match strstrIdx s (strBytes " on file ") with
  | none => none
  | some i =>
      let endQuote := scanBackToQuote s i
      if s.getD endQuote 0 ≠ 34 then none
      else
        let startQuote := scanBackToQuote s (endQuote - 1)
        if s.getD startQuote 0 ≠ 34 then none
        else
          let ptr := scanBackNonSpace s (startQuote - 1)
          if 0 < ptr ∧ s.getD ptr 0 = 38 ∧ s.getD (ptr - 1) 0 = 38 then
            some ((s.drop (startQuote + 1)).take (endQuote - (startQuote + 1)))
          else none

/-- `_UT_DeathExpect` (the `float min_similarity` is idealized as `ℚ`; a NULL
`expected_assert_msg` is `none`). -/
structure _UT_DeathExpect where
  expected_signal : Int
  expected_exit_code : Int
  min_similarity : ℚ
  expected_assert_msg : Option (List Nat)
  is_exact_assert_check : Bool
deriving DecidableEq

/-- `_UT_validate_assert_message`: no expected message means success;
otherwise the message must be extractable and must match exactly
(`is_exact_assert_check`) or by similarity at least `min_similarity`. -/
def _UT_validate_assert_message (output_buffer : List Nat) (de : _UT_DeathExpect) : Bool :=
  match de.expected_assert_msg with
  | none => true
  | some expected =>
      match _UT_extract_assert_message output_buffer with
      | none => false
      | some extracted =>
          if de.is_exact_assert_check then extracted == expected
          else decide (de.min_similarity ≤ _UT_calculate_similarity_ratio_q extracted expected)

/-- How the supervised child terminated (`waitpid` without `WUNTRACED`):
a normal exit with an 8-bit code, or death by a signal. -/
inductive ChildTermination where
  | exited (code : Nat)
  | signaled (sig : Nat)
deriving DecidableEq, Repr

/-- `WIFSIGNALED` on the wait status. -/
def WIFSIGNALED : ChildTermination → Bool
  | .exited _ => false
  | .signaled _ => true

/-- `WIFEXITED` on the wait status. -/
def WIFEXITED : ChildTermination → Bool
  | .exited _ => true
  | .signaled _ => false

/-- `WTERMSIG` (only meaningful when signaled; guarded at every use). -/
def WTERMSIG : ChildTermination → Nat
  | .exited _ => 0
  | .signaled sig => sig

/-- `WEXITSTATUS` (only meaningful when exited; guarded at every use). -/
def WEXITSTATUS : ChildTermination → Nat
  | .exited code => code
  | .signaled _ => 0

/-- Status enum values of `_UT_TestStatus`, as C ints. -/
def _UT_STATUS_PENDING : Int := 0

/-- `_UT_STATUS_PASSED`. -/
def _UT_STATUS_PASSED : Int := 1

/-- `_UT_STATUS_FAILED`. -/
def _UT_STATUS_FAILED : Int := 2

/-- `_UT_STATUS_CRASHED`. -/
def _UT_STATUS_CRASHED : Int := 3

/-- `_UT_STATUS_TIMEOUT`. -/
def _UT_STATUS_TIMEOUT : Int := 4

/-- `_UT_STATUS_DEATH_TEST_PASSED`. -/
def _UT_STATUS_DEATH_TEST_PASSED : Int := 5

/-- `_UT_STATUS_FRAMEWORK_ERROR`. -/
def _UT_STATUS_FRAMEWORK_ERROR : Int := 6

/-- The `termination_ok` computation in the death-expectation branch of
`_UT_run_process_posix` (lines 1902-1912): the expected-signal channel is
tried first, the expected-exit-code channel only when the first `if` guard
is false. -/
def deathTerminationOk (de : _UT_DeathExpect) (t : ChildTermination) : Bool :=
  if de.expected_signal != 0 && WIFSIGNALED t then
    (WTERMSIG t : Int) == de.expected_signal
  else if de.expected_exit_code != -1 && WIFEXITED t then
    (WEXITSTATUS t : Int) == de.expected_exit_code
  else false

/-- The status assigned by the death-expectation branch of
`_UT_run_process_posix` for a non-timed-out child (the synthesized
SIGABRT explanation record does not change the status). -/
def classifyDeathStatus (de : _UT_DeathExpect) (t : ChildTermination)
    (output_buffer : List Nat) : Int :=
  let termination_ok := deathTerminationOk de t
  let msg_ok := _UT_validate_assert_message output_buffer de
  if termination_ok && msg_ok then _UT_STATUS_DEATH_TEST_PASSED else _UT_STATUS_FAILED

/-- Modelled from the spec claim C1 wording: the child terminated abnormally
(non-zero exit or by signal). -/
def specAbnormal : ChildTermination → Bool
  | .exited code => code != 0
  | .signaled _ => true

/-- Modelled from the spec claim C1 wording: the termination matched the
exact channel requested (an expected signal only by that signal, an expected
exit code only by a normal exit with that code). -/
def specChannelMatched (de : _UT_DeathExpect) : ChildTermination → Bool
  | .signaled sig => de.expected_signal != 0 && ((sig : Int) == de.expected_signal)
  | .exited code => de.expected_exit_code != -1 && ((code : Int) == de.expected_exit_code)

/-- Modelled from the spec claim C1 wording: the full claimed pass condition
of a death test — abnormal termination, matched channel, and the message
requirement (which is `_UT_validate_assert_message` spelled out). -/
def specDeathPass (de : _UT_DeathExpect) (t : ChildTermination)
    (output_buffer : List Nat) : Bool :=
  specAbnormal t && specChannelMatched de t && _UT_validate_assert_message output_buffer de

/-! ## Memory tracking (`UnitTest.h`, section 4 and the wrappers) -/

/-- `_UT_MemInfo`: one tracked allocation.  The heap address is abstracted
as a `Nat` (0 is `NULL`). -/
structure _UT_MemInfo where
  address : Nat
  size : Nat
  file : List Nat
  line : Int
  is_baseline : Bool
deriving DecidableEq, Repr

/-- The global tracker state: the `_UT_mem_head` list and the counters and
switches (`UT_alloc_count`, `UT_free_count`, `UT_total_bytes_allocated`,
`UT_total_bytes_freed`, `_UT_mem_tracking_enabled`,
`_UT_mem_tracking_is_active`, `_UT_leak_UT_check_enabled`). -/
structure TrackerState where
  mem_head : List _UT_MemInfo
  alloc_count : Nat
  free_count : Nat
  total_bytes_allocated : Nat
  total_bytes_freed : Nat
  mem_tracking_enabled : Bool
  mem_tracking_is_active : Bool
  leak_check_enabled : Bool
deriving DecidableEq, Repr

/-- `_UT_init_memory_tracking`: drop all records, zero the counters, switch
tracking fully on. -/
def _UT_init_memory_tracking : TrackerState :=
  { mem_head := [], alloc_count := 0, free_count := 0,
    total_bytes_allocated := 0, total_bytes_freed := 0,
    mem_tracking_enabled := true, mem_tracking_is_active := true,
    leak_check_enabled := true }

/-- `_UT_malloc`.  The underlying allocation is assumed to succeed and to
return the (caller-chosen, non-deterministic) address `addr`; the C branch
for a NULL `malloc` result and for a failed record-node allocation is the
out-of-memory path and is not modelled. -/
def _UT_malloc (st : TrackerState) (addr : Nat) (size : Nat)
    (file : List Nat) (line : Int) : TrackerState :=
  if !(st.mem_tracking_enabled && st.mem_tracking_is_active) then st
  else
    { st with
      total_bytes_allocated := st.total_bytes_allocated + size,
      mem_head := ⟨addr, size, file, line, false⟩ :: st.mem_head,
      alloc_count := st.alloc_count + 1 }

/-- `_UT_calloc`: like `_UT_malloc` with `num * size` total bytes. -/
def _UT_calloc (st : TrackerState) (addr : Nat) (num size : Nat)
    (file : List Nat) (line : Int) : TrackerState :=
  if !(st.mem_tracking_enabled && st.mem_tracking_is_active) then st
  else
    { st with
      total_bytes_allocated := st.total_bytes_allocated + num * size,
      mem_head := ⟨addr, num * size, file, line, false⟩ :: st.mem_head,
      alloc_count := st.alloc_count + 1 }

/-- The record-list walk shared by `_UT_free` and `_UT_realloc`: split the
list around the FIRST record whose address matches. -/
def findSplit (ptr : Nat) : List _UT_MemInfo →
    Option (List _UT_MemInfo × _UT_MemInfo × List _UT_MemInfo)
  | [] => none
  | c :: rest =>
      if c.address = ptr then some ([], c, rest)
      else (findSplit ptr rest).map (fun q => (c :: q.1, q.2.1, q.2.2))

/-- `_UT_free`: NULL is a no-op; a pass-through when tracking is off; a
tracked address has its record unlinked, the free count bumped, and its size
added to the freed-bytes counter; an untracked address is the fatal
`exit(122)`, modelled as `Except.error 122`. -/
def _UT_free (st : TrackerState) (ptr : Nat) : Except Nat TrackerState :=
  if ptr = 0 then .ok st
  else if !(st.mem_tracking_enabled && st.mem_tracking_is_active) then .ok st
  else
    match findSplit ptr st.mem_head with
    | none => .error 122
    | some (pre, c, post) =>
        .ok { st with
              mem_head := pre ++ post,
              total_bytes_freed := st.total_bytes_freed + c.size,
              free_count := st.free_count + 1 }

/-- `_UT_realloc`.  NULL behaves as `_UT_malloc`, size 0 as `_UT_free`, a
pass-through when tracking is off; a tracked address has its record updated
in place (the successful-`realloc` result address is the caller-chosen
`new_addr`) and the byte counters adjusted by the size difference; an
untracked address is the fatal `exit(120)`. -/
def _UT_realloc (st : TrackerState) (old_ptr : Nat) (new_addr new_size : Nat)
    (file : List Nat) (line : Int) : Except Nat TrackerState :=
  if old_ptr = 0 then .ok (_UT_malloc st new_addr new_size file line)
  else if new_size = 0 then _UT_free st old_ptr
  else if !(st.mem_tracking_enabled && st.mem_tracking_is_active) then .ok st
  else
    match findSplit old_ptr st.mem_head with
    | none => .error 120
    | some (pre, c, post) =>
        .ok { st with
              mem_head := pre ++ ⟨new_addr, new_size, file, line, c.is_baseline⟩ :: post,
              total_bytes_allocated :=
                if c.size < new_size then st.total_bytes_allocated + (new_size - c.size)
                else st.total_bytes_allocated,
              total_bytes_freed :=
                if c.size < new_size then st.total_bytes_freed
                else st.total_bytes_freed + (c.size - new_size) }

/-- `UT_mark_memory_as_baseline`: when tracking is compile-enabled and the
runtime switch is on, set the baseline flag of every live record. -/
def UT_mark_memory_as_baseline (st : TrackerState) : TrackerState :=
  if !st.mem_tracking_enabled then st
  else
    { st with
      mem_head := st.mem_head.map
        (fun c => if c.is_baseline = false then { c with is_baseline := true } else c) }

/-- The `leak_info` text `snprintf`ed for one leaked record (before its
256-byte buffer truncation): `"\n      - %zu bytes allocated at %s:%d"`. -/
def leakEntry (c : _UT_MemInfo) : List Nat :=
  strBytes "\n      - " ++ natToDec c.size ++ strBytes " bytes allocated at "
    ++ c.file ++ strBytes ":" ++ intToDec c.line

/-- The `leak_details` buffer built by `_UT_check_for_leaks`: starting from
`"Memory leak detected."`, each non-baseline record's entry is `snprintf`ed
into a 256-byte buffer (truncating to 255 bytes) and `strncat`ed into the
1024-byte details buffer (truncating to its remaining space). -/
def leakDetails (records : List _UT_MemInfo) : List Nat :=
  records.foldl
    (fun acc c =>
      if c.is_baseline then acc
      else acc ++ (((leakEntry c).take 255).take (1023 - acc.length)))
    (strBytes "Memory leak detected.")

/-- `_UT_check_for_leaks`: scan the live list; if any record has a clear
baseline flag, record exactly one assertion failure carrying the details
text.  The tracker's enabled switch is toggled off during the scan and back
on at the end (net effect: forced on). -/
def _UT_check_for_leaks (st : TrackerState) (res : _UT_TestResult) :
    TrackerState × _UT_TestResult :=
  let leaks_found := st.mem_head.any (fun c => !c.is_baseline)
  let res1 :=
    if leaks_found then
      _UT_record_failure res (strBytes "Memory Tracker") 0
        (strBytes "No memory leaks") (strBytes "0 un-freed allocations")
        (leakDetails st.mem_head)
    else res
  ({ st with mem_tracking_enabled := true }, res1)

/-- One call to an allocation wrapper, with the addresses the underlying
allocator returns chosen by the environment. -/
inductive MemOp where
  | mallocOp (addr size : Nat) (file : List Nat) (line : Int)
  | callocOp (addr num size : Nat) (file : List Nat) (line : Int)
  | reallocOp (old_ptr new_addr new_size : Nat) (file : List Nat) (line : Int)
  | freeOp (ptr : Nat)
deriving DecidableEq, Repr

/-- Apply one wrapper call to the tracker state. -/
def applyMemOp (st : TrackerState) : MemOp → Except Nat TrackerState
  | .mallocOp addr size file line => .ok (_UT_malloc st addr size file line)
  | .callocOp addr num size file line => .ok (_UT_calloc st addr num size file line)
  | .reallocOp old_ptr new_addr new_size file line =>
      _UT_realloc st old_ptr new_addr new_size file line
  | .freeOp ptr => _UT_free st ptr

/-- Run a sequence of wrapper calls; a fatal wrapper exit aborts the run. -/
def runMemOps (st : TrackerState) : List MemOp → Except Nat TrackerState
  | [] => .ok st
  | op :: rest =>
      match applyMemOp st op with
      | .error e => .error e
      | .ok st1 => runMemOps st1 rest

/-- Sum of the `size` fields of the records currently in the live list. -/
def liveBytes (st : TrackerState) : Nat := (st.mem_head.map (fun c => c.size)).sum

/-- The byte-level precondition of the codec round-trip claims: the string
holds no NUL byte (which would truncate it) and no 0x1F frame-marker byte. -/
def goodString (s : List Nat) : Prop := 0 ∉ s ∧ 31 ∉ s

/-- A failure record whose frame line survives the parser's buffers: every
string field is `goodString`, fits the 2048-byte field buffer (2047 content
bytes), and the whole serialized line fits the 4096-byte line buffer (4095
content bytes). -/
def goodFailure (f : _UT_AssertionFailure) : Prop :=
  goodString f.file ∧ goodString f.condition_str ∧ goodString f.expected_str
    ∧ goodString f.actual_str
    ∧ f.file.length ≤ 2047 ∧ f.condition_str.length ≤ 2047
    ∧ f.expected_str.length ≤ 2047 ∧ f.actual_str.length ≤ 2047
    ∧ (serializeFailureLine f).length ≤ 4095

instance (s : List Nat) : Decidable (goodString s) := by
  unfold goodString; infer_instance

instance (f : _UT_AssertionFailure) : Decidable (goodFailure f) := by
  unfold goodFailure; infer_instance

/-- First leaked record of the C5 truncation counterexample: a 100-byte
block with a 230-byte file name (its formatted entry exceeds the 256-byte
`leak_info` buffer, so `snprintf` truncates it to 255 bytes). -/
def cexC1 : _UT_MemInfo := ⟨4096, 100, List.replicate 230 97, 1, false⟩

/-- Second leaked record of the C5 counterexample. -/
def cexC2 : _UT_MemInfo := ⟨8192, 100, List.replicate 230 97, 2, false⟩

/-- Third leaked record of the C5 counterexample. -/
def cexC3 : _UT_MemInfo := ⟨12288, 100, List.replicate 230 97, 3, false⟩

/-- Fourth leaked record of the C5 counterexample; its file name ends in
five `Z` bytes (90) which lie beyond every truncation limit, so they can
never appear in the details text. -/
def cexC4 : _UT_MemInfo :=
  ⟨16384, 100, List.replicate 235 97 ++ List.replicate 5 90, 4, false⟩

/-- Tracker state of the C5 counterexample: four leaked blocks whose entries
overflow the 1024-byte `leak_details` buffer. -/
def cexSt : TrackerState :=
  ⟨[cexC1, cexC2, cexC3, cexC4], 4, 0, 400, 0, true, true, true⟩

/-! ## Decimal printing and `atoi` lemmas -/

theorem natToDecAux_fuel_irrel (n : Nat) : ∀ (f1 f2 : Nat) (acc : List Nat),
    n < f1 → n < f2 → natToDecAux f1 n acc = natToDecAux f2 n acc := by
  induction n using Nat.strong_induction_on with
  | _ n ih =>
    intro f1 f2 acc h1 h2
    rcases f1 with _ | g1
    · omega
    rcases f2 with _ | g2
    · omega
    simp only [natToDecAux]
    split
    · rfl
    · rename_i hn
      exact ih (n / 10) (Nat.div_lt_self (by omega) (by omega)) g1 g2 _
        (by have := Nat.div_lt_self (show 0 < n by omega) (by omega : 1 < 10); omega)
        (by have := Nat.div_lt_self (show 0 < n by omega) (by omega : 1 < 10); omega)

theorem natToDecAux_acc (n : Nat) : ∀ (fuel : Nat) (acc : List Nat), n < fuel →
    natToDecAux fuel n acc = natToDecAux fuel n [] ++ acc := by
  induction n using Nat.strong_induction_on with
  | _ n ih =>
    intro fuel acc hf
    rcases fuel with _ | g
    · omega
    simp only [natToDecAux]
    split
    · simp
    · rename_i hn
      have hd : n / 10 < n := Nat.div_lt_self (by omega) (by omega)
      have hg : n / 10 < g := by omega
      rw [ih (n / 10) hd g _ hg, ih (n / 10) hd g [48 + n % 10] hg]
      simp

theorem natToDec_eq (n : Nat) :
    natToDec n = if n < 10 then [48 + n] else natToDec (n / 10) ++ [48 + n % 10] := by
  have hax : natToDec n = natToDecAux (n + 1) n [] := rfl
  by_cases h : n < 10
  · rw [if_pos h, hax]
    simp [natToDecAux, h]
  · have hd : n / 10 < n := Nat.div_lt_self (by omega) (by omega)
    rw [if_neg h, hax]
    rw [show natToDecAux (n + 1) n [] = natToDecAux n (n / 10) [48 + n % 10] from by
      simp [natToDecAux, h]]
    rw [natToDecAux_fuel_irrel (n / 10) n (n / 10 + 1) _ (by omega) (by omega)]
    rw [natToDecAux_acc (n / 10) (n / 10 + 1) _ (by omega)]
    rfl

theorem natToDec_ne_nil (n : Nat) : natToDec n ≠ [] := by
  rw [natToDec_eq]; split <;> simp

theorem mem_natToDec (n : Nat) : ∀ c ∈ natToDec n, 48 ≤ c ∧ c ≤ 57 := by
  induction n using Nat.strong_induction_on with
  | _ n ih =>
    rw [natToDec_eq]
    split
    · rename_i h
      intro c hc
      simp at hc
      omega
    · rename_i h
      intro c hc
      simp at hc
      rcases hc with hc | hc
      · exact ih (n / 10) (Nat.div_lt_self (by omega) (by omega)) c hc
      · have := Nat.mod_lt n (y := 10) (by omega)
        omega

theorem digitsValAux_append (l1 l2 : List Nat) (acc : Nat)
    (h : ∀ c ∈ l1, isDigitByte c = true) :
    digitsValAux (l1 ++ l2) acc = digitsValAux l2 (digitsValAux l1 acc) := by
  induction l1 generalizing acc with
  | nil => simp [digitsValAux]
  | cons c rest ih =>
      have hc : isDigitByte c = true := h c (by simp)
      simp only [List.cons_append, digitsValAux, hc, if_true]
      exact ih _ (fun d hd => h d (by simp [hd]))

theorem isDigitByte_natToDec (n : Nat) : ∀ c ∈ natToDec n, isDigitByte c = true := by
  intro c hc
  have := mem_natToDec n c hc
  simp [isDigitByte]
  omega

theorem digitsValAux_natToDec (n : Nat) :
    ∀ acc, digitsValAux (natToDec n) acc = acc * 10 ^ (natToDec n).length + n := by
  induction n using Nat.strong_induction_on with
  | _ n ih =>
    intro acc
    rw [natToDec_eq]
    split
    · rename_i h
      simp [digitsValAux, isDigitByte]
      omega
    · rename_i h
      rw [digitsValAux_append _ _ _ (isDigitByte_natToDec _)]
      have hd : n / 10 < n := Nat.div_lt_self (by omega) (by omega)
      rw [ih (n / 10) hd acc]
      have hdig : isDigitByte (48 + n % 10) = true := by
        simp [isDigitByte]; omega
      simp only [digitsValAux, hdig, if_true]
      have hlen : (natToDec (n / 10) ++ [48 + n % 10]).length
          = (natToDec (n / 10)).length + 1 := by simp
      rw [hlen]
      have hmod : 48 + n % 10 - 48 = n % 10 := by omega
      rw [hmod, pow_succ]
      have := Nat.div_add_mod n 10
      ring_nf
      omega

theorem digitsVal_natToDec (n : Nat) : digitsValAux (natToDec n) 0 = n := by
  rw [digitsValAux_natToDec]; simp

theorem not_space_of_digit (c : Nat) (h : 48 ≤ c ∧ c ≤ 57) : isSpaceByte c = false := by
  simp only [isSpaceByte, Bool.or_eq_false_iff, Bool.and_eq_false_iff,
    beq_eq_false_iff_ne, decide_eq_false_iff_not]
  omega

theorem atoiModel_cons_notspace (c : Nat) (rest : List Nat) (h : isSpaceByte c = false) :
    atoiModel (c :: rest) =
      if c = 43 then (digitsValAux rest 0 : Int)
      else if c = 45 then -(digitsValAux rest 0 : Int)
      else (digitsValAux (c :: rest) 0 : Int) := by
  unfold atoiModel
  rw [List.dropWhile_cons_of_neg (by simp [h])]

theorem atoiModel_intToDec (i : Int) : atoiModel (intToDec i) = i := by
  by_cases hi : i < 0
  · rw [show intToDec i = 45 :: natToDec i.natAbs from by rw [intToDec, if_pos hi]]
    rw [atoiModel_cons_notspace 45 _ (by decide)]
    rw [if_neg (by omega), if_pos rfl, digitsVal_natToDec]
    omega
  · rw [show intToDec i = natToDec i.toNat from by rw [intToDec, if_neg hi]]
    rcases hn : natToDec i.toNat with _ | ⟨c, rest⟩
    · exact absurd hn (natToDec_ne_nil _)
    · have hc : 48 ≤ c ∧ c ≤ 57 :=
        mem_natToDec i.toNat c (by rw [hn]; exact List.mem_cons_self c rest)
      rw [atoiModel_cons_notspace c rest (not_space_of_digit c hc)]
      rw [if_neg (by omega), if_neg (by omega), ← hn, digitsVal_natToDec]
      omega

/-! ## Escape and token lemmas -/

theorem mem_escape (s : List Nat) :
    ∀ c ∈ _UT_serialize_string_escaped s, c = 92 ∨ c ∈ s := by
  induction s with
  | nil => simp [_UT_serialize_string_escaped]
  | cons c rest ih =>
      intro d hd
      by_cases hc : c = 124 ∨ c = 92
      · simp only [_UT_serialize_string_escaped, if_pos hc, List.mem_cons] at hd
        rcases hd with hd | hd | hd
        · exact Or.inl hd
        · exact Or.inr (by simp [hd])
        · rcases ih d hd with h | h
          · exact Or.inl h
          · exact Or.inr (List.mem_cons_of_mem c h)
      · simp only [_UT_serialize_string_escaped, if_neg hc, List.mem_cons] at hd
        rcases hd with hd | hd
        · exact Or.inr (by simp [hd])
        · rcases ih d hd with h | h
          · exact Or.inl h
          · exact Or.inr (List.mem_cons_of_mem c h)

theorem length_le_escape (s : List Nat) :
    s.length ≤ (_UT_serialize_string_escaped s).length := by
  induction s with
  | nil => simp [_UT_serialize_string_escaped]
  | cons c rest ih =>
      by_cases hc : c = 124 ∨ c = 92
      · simp only [_UT_serialize_string_escaped, if_pos hc, List.length_cons]
        omega
      · simp only [_UT_serialize_string_escaped, if_neg hc, List.length_cons]
        omega

theorem token_nil_input (cap : Nat) : _UT_get_next_token cap [] = ([], []) := rfl

theorem token_pipe_head (cap : Nat) (rest : List Nat) :
    _UT_get_next_token cap (124 :: rest) = ([], rest) := by
  rw [_UT_get_next_token.eq_def]
  norm_num

theorem token_plain_head (cap c : Nat) (rest : List Nat)
    (h0 : c ≠ 0) (h124 : c ≠ 124) (h92 : c ≠ 92) (hcap : cap ≠ 0) :
    _UT_get_next_token cap (c :: rest) =
      (c :: (_UT_get_next_token (cap - 1) rest).1, (_UT_get_next_token (cap - 1) rest).2) := by
  rw [_UT_get_next_token.eq_def]
  simp only [if_neg h0, if_neg h124, if_neg hcap, if_neg h92]

theorem token_escape_head (cap c : Nat) (rest : List Nat)
    (h0 : c ≠ 0) (hcap : cap ≠ 0) :
    _UT_get_next_token cap (92 :: c :: rest) =
      (c :: (_UT_get_next_token (cap - 1) rest).1, (_UT_get_next_token (cap - 1) rest).2) := by
  rw [_UT_get_next_token.eq_def]
  simp only [if_neg (by omega : ¬ (92 : Nat) = 0),
    if_neg (by omega : ¬ (92 : Nat) = 124), if_neg hcap, if_pos rfl, if_neg h0]
  simp

theorem token_of_escape_pipe (s : List Nat) : ∀ (cap : Nat) (rest : List Nat),
    0 ∉ s → s.length ≤ cap →
    _UT_get_next_token cap (_UT_serialize_string_escaped s ++ 124 :: rest) = (s, rest) := by
  induction s with
  | nil =>
      intro cap rest _ _
      simp only [_UT_serialize_string_escaped, List.nil_append]
      exact token_pipe_head cap rest
  | cons c s1 ih =>
      intro cap rest h0 hcap
      have hc0 : c ≠ 0 := fun h => h0 (by simp [h])
      have h01 : 0 ∉ s1 := fun h => h0 (by simp [h])
      have hcappos : cap ≠ 0 := by simp at hcap; omega
      have hcap1 : s1.length ≤ cap - 1 := by simp at hcap; omega
      by_cases hc : c = 124 ∨ c = 92
      · simp only [_UT_serialize_string_escaped, if_pos hc, List.cons_append]
        rw [token_escape_head cap c _ hc0 hcappos]
        rw [ih (cap - 1) rest h01 hcap1]
      · have hc124 : c ≠ 124 := fun h => hc (Or.inl h)
        have hc92 : c ≠ 92 := fun h => hc (Or.inr h)
        simp only [_UT_serialize_string_escaped, if_neg hc, List.cons_append]
        rw [token_plain_head cap c _ hc0 hc124 hc92 hcappos]
        rw [ih (cap - 1) rest h01 hcap1]

theorem token_of_escape_nil (s : List Nat) : ∀ (cap : Nat),
    0 ∉ s → s.length ≤ cap →
    _UT_get_next_token cap (_UT_serialize_string_escaped s) = (s, []) := by
  induction s with
  | nil =>
      intro cap _ _
      simp only [_UT_serialize_string_escaped]
      exact token_nil_input cap
  | cons c s1 ih =>
      intro cap h0 hcap
      have hc0 : c ≠ 0 := fun h => h0 (by simp [h])
      have h01 : 0 ∉ s1 := fun h => h0 (by simp [h])
      have hcappos : cap ≠ 0 := by simp at hcap; omega
      have hcap1 : s1.length ≤ cap - 1 := by simp at hcap; omega
      by_cases hc : c = 124 ∨ c = 92
      · simp only [_UT_serialize_string_escaped, if_pos hc]
        rw [token_escape_head cap c _ hc0 hcappos]
        rw [ih (cap - 1) h01 hcap1]
      · have hc124 : c ≠ 124 := fun h => hc (Or.inl h)
        have hc92 : c ≠ 92 := fun h => hc (Or.inr h)
        simp only [_UT_serialize_string_escaped, if_neg hc]
        rw [token_plain_head cap c _ hc0 hc124 hc92 hcappos]
        rw [ih (cap - 1) h01 hcap1]

/-- C8: for every byte sequence, including sequences containing `|` and `\`
(no NUL byte, no 0x1F marker byte, escaped form fits the token buffer),
writing it with `_UT_serialize_string_escaped` and reading it back with
`_UT_get_next_token` returns the original sequence byte-for-byte. -/
theorem C8_escape_unescape_roundtrip (s : List Nat) (cap : Nat)
    (h0 : 0 ∉ s) (h31 : _UT_SERIALIZATION_MARKER ∉ s)
    (hcap : (_UT_serialize_string_escaped s).length ≤ cap) :
    _UT_get_next_token cap (_UT_serialize_string_escaped s) = (s, []) :=
  token_of_escape_nil s cap h0 (le_trans (length_le_escape s) hcap)

theorem C8_escape_unescape_roundtrip_witness :
    (0 ∉ strBytes "a|b\\c") ∧ (_UT_SERIALIZATION_MARKER ∉ strBytes "a|b\\c")
      ∧ _UT_get_next_token 2047 (_UT_serialize_string_escaped (strBytes "a|b\\c"))
          = (strBytes "a|b\\c", []) :=
  ⟨by decide, by decide,
    C8_escape_unescape_roundtrip (strBytes "a|b\\c") 2047 (by decide) (by decide) (by decide)⟩

/-! ## Frame-splitting and deserialization lemmas -/

theorem splitOnMarker_append (A : List Nat) : ∀ (rest : List Nat), (∀ b ∈ A, b ≠ 31) →
    splitOnMarker (A ++ 31 :: rest) = A :: splitOnMarker rest := by
  induction A with
  | nil =>
      intro rest _
      simp [splitOnMarker]
  | cons c A1 ih =>
      intro rest hA
      have hc : c ≠ 31 := hA c (by simp)
      simp only [List.cons_append, splitOnMarker, if_neg hc, List.append_eq]
      rw [ih rest (fun b hb => hA b (by simp [hb]))]

theorem mem_intToDec (i : Int) : ∀ c ∈ intToDec i, c = 45 ∨ (48 ≤ c ∧ c ≤ 57) := by
  intro c hc
  rw [intToDec] at hc
  by_cases hi : i < 0
  · rw [if_pos hi] at hc
    rcases List.mem_cons.mp hc with h | h
    · exact Or.inl h
    · exact Or.inr (mem_natToDec _ c h)
  · rw [if_neg hi] at hc
    exact Or.inr (mem_natToDec _ c hc)

theorem no31_statusLine (i : Int) : ∀ b ∈ _UT_KEY_STATUS ++ intToDec i, b ≠ 31 := by
  intro b hb hb31
  subst hb31
  rcases List.mem_append.mp hb with h | h
  · exact absurd h (by decide)
  · rcases mem_intToDec i 31 h with h1 | h1 <;> omega

theorem no31_escape (s : List Nat) (hs : 31 ∉ s) :
    (31 : Nat) ∉ _UT_serialize_string_escaped s := by
  intro hmem
  rcases mem_escape s 31 hmem with h | h
  · omega
  · exact hs h

theorem no31_serializeFailureLine (f : _UT_AssertionFailure) (hf : goodFailure f) :
    ∀ b ∈ serializeFailureLine f, b ≠ 31 := by
  obtain ⟨⟨_, h1⟩, ⟨_, h2⟩, ⟨_, h3⟩, ⟨_, h4⟩, _⟩ := hf
  intro b hb hb31
  subst hb31
  simp only [serializeFailureLine, List.append_assoc, List.mem_append,
    List.mem_singleton] at hb
  rcases hb with h | hb
  · exact absurd h (by decide)
  rcases hb with h | hb
  · exact no31_escape _ h1 h
  rcases hb with h | hb
  · omega
  rcases hb with h | hb
  · rcases mem_intToDec f.line 31 h with h5 | h5 <;> omega
  rcases hb with h | hb
  · omega
  rcases hb with h | hb
  · exact no31_escape _ h2 h
  rcases hb with h | hb
  · omega
  rcases hb with h | hb
  · exact no31_escape _ h3 h
  rcases hb with h | h
  · omega
  · exact no31_escape _ h4 h

theorem no31_endLine : ∀ b ∈ strBytes "end_of_data", b ≠ 31 := by decide

theorem splitOnMarker_serializeFailures (fs : List _UT_AssertionFailure)
    (hf : ∀ f ∈ fs, goodFailure f) :
    splitOnMarker (serializeFailures fs ++ strBytes "end_of_data" ++ [31]) =
      fs.map serializeFailureLine ++ [strBytes "end_of_data"] := by
  induction fs with
  | nil =>
      simp only [serializeFailures, List.nil_append, List.map_nil]
      rw [splitOnMarker_append _ [] no31_endLine]
      simp [splitOnMarker]
  | cons f fs1 ih =>
      have hshape : serializeFailures (f :: fs1) ++ strBytes "end_of_data" ++ [31]
          = serializeFailureLine f
              ++ 31 :: (serializeFailures fs1 ++ strBytes "end_of_data" ++ [31]) := by
        simp [serializeFailures]
      rw [hshape, splitOnMarker_append _ _ (no31_serializeFailureLine f (hf f (by simp)))]
      rw [ih (fun g hg => hf g (by simp [hg]))]
      simp

theorem splitOnMarker_serialize (r : _UT_TestResult)
    (hf : ∀ f ∈ r.failures, goodFailure f) :
    splitOnMarker (_UT_serialize_result r) =
      (_UT_KEY_STATUS ++ intToDec r.status)
        :: (r.failures.map serializeFailureLine ++ [strBytes "end_of_data"]) := by
  have hshape : _UT_serialize_result r = (_UT_KEY_STATUS ++ intToDec r.status)
      ++ 31 :: (serializeFailures r.failures ++ strBytes "end_of_data" ++ [31]) := by
    simp [_UT_serialize_result]
  rw [hshape, splitOnMarker_append _ _ (no31_statusLine r.status)]
  rw [splitOnMarker_serializeFailures r.failures hf]

theorem splitAtFirst_append (A : List Nat) : ∀ (rest : List Nat), (∀ b ∈ A, b ≠ 124) →
    splitAtFirst 124 (A ++ 124 :: rest) = some (A, rest) := by
  induction A with
  | nil =>
      intro rest _
      simp [splitAtFirst]
  | cons c A1 ih =>
      intro rest hA
      have hc : c ≠ 124 := hA c (by simp)
      simp only [List.cons_append, splitAtFirst, if_neg hc, List.append_eq]
      rw [ih rest (fun b hb => hA b (by simp [hb]))]
      rfl

theorem no124_intToDec (i : Int) : ∀ b ∈ intToDec i, b ≠ 124 := by
  intro b hb
  rcases mem_intToDec i b hb with h | h <;> omega

theorem parseFailureFields_serialize (f : _UT_AssertionFailure) (hf : goodFailure f) :
    parseFailureFields ((serializeFailureLine f).drop 8) = f := by
  obtain ⟨⟨hf0, _⟩, ⟨hc0, _⟩, ⟨he0, _⟩, ⟨ha0, _⟩, hfl, hcl, hel, hal, _⟩ := hf
  have hkey : serializeFailureLine f = _UT_KEY_FAILURE
      ++ (_UT_serialize_string_escaped f.file ++ 124 :: (intToDec f.line
        ++ 124 :: (_UT_serialize_string_escaped f.condition_str
        ++ 124 :: (_UT_serialize_string_escaped f.expected_str
        ++ 124 :: _UT_serialize_string_escaped f.actual_str)))) := by
    simp [serializeFailureLine]
  have hdrop : (serializeFailureLine f).drop 8
      = _UT_serialize_string_escaped f.file ++ 124 :: (intToDec f.line
        ++ 124 :: (_UT_serialize_string_escaped f.condition_str
        ++ 124 :: (_UT_serialize_string_escaped f.expected_str
        ++ 124 :: _UT_serialize_string_escaped f.actual_str))) := by
    rw [hkey, List.drop_left' (by rfl)]
  rw [hdrop]
  unfold parseFailureFields
  rw [token_of_escape_pipe f.file 2047 _ hf0 hfl]
  simp only
  rw [splitAtFirst_append (intToDec f.line) _ (no124_intToDec f.line)]
  simp only [atoiModel_intToDec]
  rw [token_of_escape_pipe f.condition_str 2047 _ hc0 hcl]
  simp only
  rw [token_of_escape_pipe f.expected_str 2047 _ he0 hel]
  simp only
  rw [token_of_escape_nil f.actual_str 2047 ha0 hal]

theorem parseLine_statusLine (r : _UT_TestResult) (i : Int) :
    parseLine r (_UT_KEY_STATUS ++ intToDec i) = { r with status := i } := by
  unfold parseLine
  rw [show (7 : Nat) = _UT_KEY_STATUS.length from rfl, List.take_left, List.drop_left]
  rw [if_pos rfl, atoiModel_intToDec]

theorem serializeFailureLine_shape (f : _UT_AssertionFailure) :
    serializeFailureLine f = _UT_KEY_FAILURE
      ++ (_UT_serialize_string_escaped f.file ++ 124 :: (intToDec f.line
        ++ 124 :: (_UT_serialize_string_escaped f.condition_str
        ++ 124 :: (_UT_serialize_string_escaped f.expected_str
        ++ 124 :: _UT_serialize_string_escaped f.actual_str)))) := by
  simp [serializeFailureLine]

theorem parseLine_failureLine (r : _UT_TestResult) (f : _UT_AssertionFailure)
    (hf : goodFailure f) :
    parseLine r (serializeFailureLine f) = { r with failures := r.failures ++ [f] } := by
  have hc7 : (serializeFailureLine f).take 7 ≠ _UT_KEY_STATUS := by
    rw [serializeFailureLine_shape f, List.take_append_eq_append_take]
    rw [show _UT_KEY_FAILURE.take 7 = strBytes "failure" from rfl]
    rw [show (7 - _UT_KEY_FAILURE.length : Nat) = 0 from rfl]
    rw [List.take_zero, List.append_nil]
    decide
  have hc8 : (serializeFailureLine f).take 8 = _UT_KEY_FAILURE := by
    rw [serializeFailureLine_shape f, List.take_append_eq_append_take]
    rw [show _UT_KEY_FAILURE.take 8 = _UT_KEY_FAILURE from rfl]
    rw [show (8 - _UT_KEY_FAILURE.length : Nat) = 0 from rfl]
    rw [List.take_zero, List.append_nil]
  unfold parseLine
  rw [if_neg hc7, if_pos hc8, parseFailureFields_serialize f hf]

theorem parseLine_endLine (r : _UT_TestResult) :
    parseLine r (strBytes "end_of_data") = r := by
  unfold parseLine
  rw [if_neg (by decide), if_neg (by decide)]

theorem foldl_parseLine_failures (fs : List _UT_AssertionFailure) :
    ∀ (r : _UT_TestResult), (∀ f ∈ fs, goodFailure f) →
    (fs.map serializeFailureLine).foldl parseLine r
      = { r with failures := r.failures ++ fs } := by
  induction fs with
  | nil =>
      intro r _
      simp
  | cons f fs1 ih =>
      intro r h
      simp only [List.map_cons, List.foldl_cons]
      rw [parseLine_failureLine r f (h f (by simp))]
      rw [ih _ (fun g hg => h g (by simp [hg]))]
      simp

theorem natToDec_length_le : ∀ (k n : Nat), n < 10 ^ (k + 1) → (natToDec n).length ≤ k + 1 := by
  intro k
  induction k with
  | zero =>
      intro n h
      rw [natToDec_eq]
      split
      · simp
      · omega
  | succ k ih =>
      intro n h
      rw [natToDec_eq]
      split
      · simp
      · rename_i hn
        have hdiv : n / 10 < 10 ^ (k + 1) := by
          rw [pow_succ] at h
          exact Nat.div_lt_of_lt_mul (by omega)
        have := ih (n / 10) hdiv
        simp only [List.length_append, List.length_cons, List.length_nil]
        omega

theorem intToDec_length_le (i : Int) (k : Nat) (h : i.natAbs < 10 ^ (k + 1)) :
    (intToDec i).length ≤ k + 2 := by
  rw [intToDec]
  split
  · rename_i hi
    simp only [List.length_cons]
    have := natToDec_length_le k i.natAbs h
    omega
  · rename_i hi
    have htoNat : i.toNat = i.natAbs := by omega
    rw [htoNat]
    have := natToDec_length_le k i.natAbs h
    omega

/-- C3: for every child test result (any status in the C `int` range, any
finite failure list whose string fields contain no NUL byte and no 0x1F
marker byte and which fit the parser's line and field buffers), parsing the
frame produced by `_UT_serialize_result` with `_UT_deserialize_result` yields
a result with identical status and an identical failure list (file, line,
condition, expected, actual), in the same order, modulo escaping. -/
theorem C3_serialize_deserialize_roundtrip (r : _UT_TestResult)
    (hstat : r.status.natAbs ≤ 2 ^ 31)
    (hf : ∀ f ∈ r.failures, goodFailure f) :
    _UT_deserialize_result (_UT_serialize_result r) = r := by
  unfold _UT_deserialize_result
  rw [splitOnMarker_serialize r hf]
  have hstatusLen : (_UT_KEY_STATUS ++ intToDec r.status).length ≤ 4095 := by
    have h10 : r.status.natAbs < 10 ^ 10 := by
      have : (2 : Nat) ^ 31 < 10 ^ 10 := by norm_num
      omega
    have := intToDec_length_le r.status 9 h10
    simp only [List.length_append]
    have hkey : _UT_KEY_STATUS.length = 7 := rfl
    omega
  have htake : ((_UT_KEY_STATUS ++ intToDec r.status)
      :: (r.failures.map serializeFailureLine ++ [strBytes "end_of_data"])).map
        (List.take 4095)
      = (_UT_KEY_STATUS ++ intToDec r.status)
        :: (r.failures.map serializeFailureLine ++ [strBytes "end_of_data"]) := by
    rw [List.map_cons, List.take_of_length_le hstatusLen]
    rw [List.map_append, List.map_map]
    have hmap : r.failures.map (List.take 4095 ∘ serializeFailureLine)
        = r.failures.map serializeFailureLine := by
      apply List.map_congr_left
      intro f hmem
      have hlen : (serializeFailureLine f).length ≤ 4095 := by
        obtain ⟨_, _, _, _, _, _, _, _, hl⟩ := hf f hmem
        exact hl
      simp [List.take_of_length_le hlen]
    rw [hmap]
    simp only [List.map_cons, List.map_nil]
    rw [List.take_of_length_le (by decide)]
  rw [htake, List.foldl_cons, parseLine_statusLine emptyTestResult r.status]
  rw [List.foldl_append]
  rw [foldl_parseLine_failures r.failures _ hf]
  simp only [List.foldl_cons, List.foldl_nil]
  rw [parseLine_endLine]
  simp [emptyTestResult]

theorem C3_serialize_deserialize_roundtrip_witness :
    ((2 : Int).natAbs ≤ 2 ^ 31)
      ∧ (∀ f ∈ [_UT_AssertionFailure.mk (strBytes "f.c") 7 (strBytes "a|b")
            (strBytes "x\\y") (strBytes "ok")], goodFailure f)
      ∧ _UT_deserialize_result (_UT_serialize_result (_UT_TestResult.mk 2
          [_UT_AssertionFailure.mk (strBytes "f.c") 7 (strBytes "a|b")
            (strBytes "x\\y") (strBytes "ok")]))
        = _UT_TestResult.mk 2
            [_UT_AssertionFailure.mk (strBytes "f.c") 7 (strBytes "a|b")
              (strBytes "x\\y") (strBytes "ok")] :=
  ⟨by decide, by decide,
    C3_serialize_deserialize_roundtrip _ (by decide) (by decide)⟩

/-! ## Claim C2: order of recorded failures -/

theorem runSink_failures (calls : List _UT_AssertionFailure) :
    ∀ (res : _UT_TestResult),
    (runSink res calls).failures = calls.reverse ++ res.failures := by
  induction calls with
  | nil => intro res; simp [runSink]
  | cons c cs ih =>
      intro res
      show (runSink (_UT_record_failure res c.file c.line c.condition_str
          c.expected_str c.actual_str) cs).failures = _
      rw [ih]
      simp [_UT_record_failure]

theorem runSink_status (calls : List _UT_AssertionFailure) :
    ∀ (res : _UT_TestResult), (runSink res calls).status = res.status := by
  induction calls with
  | nil => intro res; simp [runSink]
  | cons c cs ih =>
      intro res
      show (runSink (_UT_record_failure res c.file c.line c.condition_str
          c.expected_str c.actual_str) cs).status = _
      rw [ih]
      rfl

/-- C2 counterexample: calling the sink with two distinct failures in order
leaves the in-flight list NOT in insertion order (the sink prepends). -/
theorem C2_failure_order_counterexample :
    (runSink emptyTestResult
        [_UT_AssertionFailure.mk (strBytes "a.c") 1 (strBytes "c1") (strBytes "e1") (strBytes "x1"),
         _UT_AssertionFailure.mk (strBytes "b.c") 2 (strBytes "c2") (strBytes "e2") (strBytes "x2")]).failures
      ≠ [_UT_AssertionFailure.mk (strBytes "a.c") 1 (strBytes "c1") (strBytes "e1") (strBytes "x1"),
         _UT_AssertionFailure.mk (strBytes "b.c") 2 (strBytes "c2") (strBytes "e2") (strBytes "x2")] := by
  decide

/-- C2 (amended): for every sequence of calls to `_UT_record_failure`, the
failure list of the in-flight result holds the records in REVERSE insertion
order (newest first, since the sink links each node at the head), and the
frame written by `_UT_serialize_result`, which walks the list from its head,
is therefore identical to the frame of a result carrying the reversed call
sequence. -/
theorem C2_failure_order_amended (res : _UT_TestResult)
    (calls : List _UT_AssertionFailure) :
    (runSink res calls).failures = calls.reverse ++ res.failures
      ∧ _UT_serialize_result (runSink emptyTestResult calls)
          = _UT_serialize_result (_UT_TestResult.mk 0 calls.reverse) := by
  refine ⟨runSink_failures calls res, ?_⟩
  unfold _UT_serialize_result
  rw [runSink_status calls emptyTestResult, runSink_failures calls emptyTestResult]
  simp [emptyTestResult]

/-! ## Claim C1: death-test classification -/

theorem deathTerminationOk_eq_channel (de : _UT_DeathExpect) (t : ChildTermination) :
    deathTerminationOk de t = specChannelMatched de t := by
  cases t with
  | exited code =>
      simp only [deathTerminationOk, specChannelMatched, WIFSIGNALED, WIFEXITED,
        WTERMSIG, WEXITSTATUS, Bool.and_false, Bool.and_true]
      cases h : de.expected_exit_code != -1 <;> simp [h]
  | signaled sig =>
      simp only [deathTerminationOk, specChannelMatched, WIFSIGNALED, WIFEXITED,
        WTERMSIG, WEXITSTATUS, Bool.and_false, Bool.and_true]
      cases h : de.expected_signal != 0 <;> simp [h]

/-- C1 counterexample: a death expectation requesting exit code 0
(`expected_signal = 0`, `expected_exit_code = 0`, no message) together with a
child that exits NORMALLY with code 0: the code classifies it
death-passed, while the claimed condition (which requires an abnormal
termination: non-zero exit or a signal) is false, so the claimed
equivalence fails. -/
theorem C1_death_pass_counterexample :
    ¬ (classifyDeathStatus (_UT_DeathExpect.mk 0 0 (95 / 100) none false)
          (ChildTermination.exited 0) [] = _UT_STATUS_DEATH_TEST_PASSED
        ↔ specDeathPass (_UT_DeathExpect.mk 0 0 (95 / 100) none false)
            (ChildTermination.exited 0) [] = true) := by
  decide

/-- C1 (amended): for every death test run by the supervisor and not timing
out, the result status is death-passed iff the termination matched the exact
channel requested — an expected signal only by a signal termination with
that signal, an expected exit code only by a normal exit with that code,
INCLUDING a normal exit with code 0 when 0 is the expected code — and the
message requirement of `_UT_validate_assert_message` holds; in every other
non-timeout case the status is failed. -/
theorem C1_death_classification_amended (de : _UT_DeathExpect)
    (t : ChildTermination) (output : List Nat) :
    (classifyDeathStatus de t output = _UT_STATUS_DEATH_TEST_PASSED
        ↔ (specChannelMatched de t = true
            ∧ _UT_validate_assert_message output de = true))
      ∧ (classifyDeathStatus de t output = _UT_STATUS_DEATH_TEST_PASSED
          ∨ classifyDeathStatus de t output = _UT_STATUS_FAILED) := by
  unfold classifyDeathStatus
  rw [deathTerminationOk_eq_channel]
  cases h1 : specChannelMatched de t
    <;> cases h2 : _UT_validate_assert_message output de
    <;> simp [h1, h2, _UT_STATUS_DEATH_TEST_PASSED, _UT_STATUS_FAILED]

/-! ## Claims C9 and C10: Levenshtein DP -/

theorem min3_eq (a b c : Nat) : _UT_min3 a b c = min a (min b c) := by
  unfold _UT_min3
  split <;> split <;> omega

theorem levT_zero_left (s1 s2 : List Nat) (j : Nat) : levT s1 s2 0 j = j := by
  rw [levT]

theorem levRowAux_spec (s1 s2 : List Nat) (i : Nat) :
    ∀ (m k : Nat), k + m = s2.length →
    levRowAux (s1.getD i 0) (s2.drop k)
        (((List.range (s2.length + 1)).map (fun j => levT s1 s2 i j)).drop k)
        (levT s1 s2 (i + 1) k)
      = (List.range m).map (fun d => levT s1 s2 (i + 1) (k + d + 1)) := by
  intro m
  induction m with
  | zero =>
      intro k hk
      rw [List.drop_eq_nil_of_le (by omega : s2.length ≤ k)]
      rw [levRowAux]
      · simp
      · intro b s2rest v0j v0rest h1 _
        exact absurd h1 (by simp)
  | succ m ih =>
      intro k hk
      have hklen : k < s2.length := by omega
      have hklen1 : k < ((List.range (s2.length + 1)).map (fun j => levT s1 s2 i j)).length := by
        simp
        omega
      have hklen2 : k + 1 < ((List.range (s2.length + 1)).map (fun j => levT s1 s2 i j)).length := by
        simp
        omega
      rw [List.drop_eq_getElem_cons hklen]
      rw [List.drop_eq_getElem_cons hklen1]
      rw [levRowAux]
      rw [List.drop_eq_getElem_cons hklen2, List.headD_cons]
      have hv0k : (((List.range (s2.length + 1)).map (fun j => levT s1 s2 i j)))[k] = levT s1 s2 i k := by
        simp
      have hv0k1 : (((List.range (s2.length + 1)).map (fun j => levT s1 s2 i j)))[k + 1] = levT s1 s2 i (k + 1) := by
        simp
      rw [hv0k, hv0k1]
      have hsk : s2[k] = s2.getD k 0 := (List.getD_eq_getElem s2 0 hklen).symm
      rw [hsk]
      have hcell : _UT_min3 (levT s1 s2 (i + 1) k + 1)
          (levT s1 s2 i (k + 1) + 1)
          (levT s1 s2 i k
            + (if tolowerByte (s1.getD i 0) = tolowerByte (s2.getD k 0) then 0 else 1))
          = levT s1 s2 (i + 1) (k + 1) := by
        conv_rhs => rw [levT]
      rw [hcell]
      rw [← hv0k1, ← List.drop_eq_getElem_cons hklen2]
      rw [ih (k + 1) (by omega)]
      rw [List.range_succ_eq_map, List.map_cons, List.map_map]
      have hidx : ((fun d => levT s1 s2 (i + 1) (k + d + 1)) ∘ Nat.succ)
          = (fun d => levT s1 s2 (i + 1) (k + 1 + d + 1)) := by
        funext d
        simp only [Function.comp]
        congr 1
        omega
      rw [hidx]

theorem levRow_full (s1 s2 : List Nat) (i : Nat) :
    (i + 1) :: levRowAux (s1.getD i 0) s2
        ((List.range (s2.length + 1)).map (fun j => levT s1 s2 i j)) (i + 1)
      = (List.range (s2.length + 1)).map (fun j => levT s1 s2 (i + 1) j) := by
  have h0 := levRowAux_spec s1 s2 i s2.length 0 (by omega)
  simp only [List.drop_zero] at h0
  rw [show levT s1 s2 (i + 1) 0 = i + 1 from by rw [levT]] at h0
  rw [h0, List.range_succ_eq_map, List.map_cons, List.map_map]
  congr 1
  · exact (show levT s1 s2 (i + 1) 0 = i + 1 from by rw [levT]).symm
  · apply List.map_congr_left
    intro d _
    simp only [Function.comp]
    congr 1
    omega

theorem levLoop_spec (s1 s2 : List Nat) :
    ∀ (rest : List Nat) (i : Nat) (v1 : List Nat),
    rest = s1.drop i → rest ≠ [] →
    levLoop s2 rest ((List.range (s2.length + 1)).map (fun j => levT s1 s2 i j)) i v1
      = (List.range (s2.length + 1)).map (fun j => levT s1 s2 s1.length j) := by
  intro rest
  induction rest with
  | nil => intro i v1 _ h; exact absurd rfl h
  | cons a rest1 ih =>
      intro i v1 hdrop _
      have hi : i < s1.length := by
        by_contra hcon
        rw [List.drop_eq_nil_of_le (by omega)] at hdrop
        exact absurd hdrop (by simp)
      have ha : a = s1.getD i 0 := by
        rw [List.drop_eq_getElem_cons hi] at hdrop
        rw [List.getD_eq_getElem s1 0 hi]
        exact (List.cons.injEq _ _ _ _ ▸ hdrop).1
      have hrest1 : rest1 = s1.drop (i + 1) := by
        rw [List.drop_eq_getElem_cons hi] at hdrop
        exact (List.cons.injEq _ _ _ _ ▸ hdrop).2
      simp only [levLoop]
      rw [ha, levRow_full s1 s2 i]
      cases hr : rest1 with
      | nil =>
          have hlen : s1.length = i + 1 := by
            rw [hr] at hrest1
            have := congrArg List.length hrest1
            simp at this
            omega
          simp only [levLoop]
          rw [hlen]
      | cons b rest2 =>
          rw [← hr]
          exact ih (i + 1) _ (by rw [hrest1]) (by rw [hr]; simp)

theorem lev_dp_eq (s1 s2 : List Nat) (h : s1 ≠ []) :
    _UT_levenshtein_distance s1 s2 = levT s1 s2 s1.length s2.length := by
  unfold _UT_levenshtein_distance
  have h0 : (List.range (s2.length + 1)).map (fun j => levT s1 s2 0 j)
      = List.range (s2.length + 1) := by
    rw [show (fun j => levT s1 s2 0 j) = fun j => j from funext (levT_zero_left s1 s2)]
    exact List.map_id _
  rw [← h0]
  rw [levLoop_spec s1 s2 s1 0 _ (by simp) h]
  have hlt : s2.length < ((List.range (s2.length + 1)).map
      (fun j => levT s1 s2 s1.length j)).length := by
    simp
  rw [List.getD_eq_getElem _ 0 hlt]
  simp

theorem lev_dp_empty (s2 : List Nat) : _UT_levenshtein_distance [] s2 = 0 := by
  unfold _UT_levenshtein_distance
  simp only [levLoop]
  have hlt : s2.length < (List.replicate (s2.length + 1) (0 : Nat)).length := by
    simp
  rw [List.getD_eq_getElem _ 0 hlt]
  simp

theorem tolowerByte_idem (c : Nat) : tolowerByte (tolowerByte c) = tolowerByte c := by
  unfold tolowerByte
  split
  · rw [if_neg (by omega)]
  · rfl

theorem tolowerByte_zero : tolowerByte 0 = 0 := by decide

theorem getD_map_tolower (s : List Nat) (k : Nat) :
    (s.map tolowerByte).getD k 0 = tolowerByte (s.getD k 0) := by
  by_cases h : k < s.length
  · have hm : k < (s.map tolowerByte).length := by simpa using h
    rw [List.getD_eq_getElem _ 0 hm, List.getD_eq_getElem _ 0 h, List.getElem_map]
  · have h1 : s.length ≤ k := by omega
    have h2 : (s.map tolowerByte).length ≤ k := by simpa using h1
    rw [List.getD_eq_default _ 0 h2, List.getD_eq_default _ 0 h1, tolowerByte_zero]

theorem levT_lower (s1 s2 : List Nat) : ∀ (n i j : Nat), i + j ≤ n →
    levT (s1.map tolowerByte) (s2.map tolowerByte) i j = levT s1 s2 i j := by
  intro n
  induction n with
  | zero =>
      intro i j h
      have hi : i = 0 := by omega
      subst hi
      rw [levT_zero_left, levT_zero_left]
  | succ n ih =>
      intro i j h
      rcases i with _ | i
      · rw [levT_zero_left, levT_zero_left]
      rcases j with _ | j
      · rw [levT, levT]
      · rw [levT, levT]
        rw [ih (i + 1) j (by omega), ih i (j + 1) (by omega), ih i j (by omega)]
        rw [getD_map_tolower s1 i, getD_map_tolower s2 j, tolowerByte_idem, tolowerByte_idem]

theorem levT_diag_zero (s1 s2 : List Nat) : ∀ (i : Nat),
    (∀ k, k < i → tolowerByte (s1.getD k 0) = tolowerByte (s2.getD k 0)) →
    levT s1 s2 i i = 0 := by
  intro i
  induction i with
  | zero =>
      intro _
      rw [levT_zero_left]
  | succ i ih =>
      intro h
      rw [levT]
      rw [if_pos (h i (by omega))]
      rw [ih (fun k hk => h k (by omega))]
      rw [min3_eq]
      omega

theorem ratio_lower_eq (s1 s2 : List Nat) :
    _UT_calculate_similarity_ratio_q (s1.map tolowerByte) (s2.map tolowerByte)
      = _UT_calculate_similarity_ratio_q s1 s2 := by
  unfold _UT_calculate_similarity_ratio_q
  simp only [List.length_map]
  rcases s1 with _ | ⟨a, s1t⟩
  · simp only [List.map_nil]
    rw [lev_dp_empty, lev_dp_empty]
  · have h1 : (a :: s1t) ≠ [] := by simp
    have h2 : ((a :: s1t).map tolowerByte) ≠ [] := by simp
    rw [if_neg (by simp), if_neg (by simp)]
    rw [if_neg (by simp), if_neg (by simp)]
    rw [lev_dp_eq _ _ h2, lev_dp_eq _ _ h1]
    simp only [List.length_map]
    rw [levT_lower (a :: s1t) s2 ((a :: s1t).length + s2.length) _ _ (le_refl _)]

theorem pointwise_lower_of_map_eq (s1 s2 : List Nat)
    (h : s1.map tolowerByte = s2.map tolowerByte) (k : Nat) :
    tolowerByte (s1.getD k 0) = tolowerByte (s2.getD k 0) := by
  rw [← getD_map_tolower s1 k, ← getD_map_tolower s2 k, h]

theorem ratio_one_of_lower_eq (s1 s2 : List Nat)
    (h : s1.map tolowerByte = s2.map tolowerByte) :
    _UT_calculate_similarity_ratio_q s1 s2 = 1 := by
  have hlen : s1.length = s2.length := by
    have := congrArg List.length h
    simpa using this
  unfold _UT_calculate_similarity_ratio_q
  rcases s1 with _ | ⟨a, s1t⟩
  · have h0 : s2.length = 0 := by simpa using hlen.symm
    rw [if_pos ⟨rfl, h0⟩]
  · rw [if_neg (by simp), if_neg (by rw [← hlen]; simp)]
    rw [lev_dp_eq _ _ (by simp)]
    rw [hlen, levT_diag_zero _ _ s2.length (fun k _ => pointwise_lower_of_map_eq _ _ h k)]
    simp

/-- C9 evaluation of the code at the failing input: because
`_UT_levenshtein_distance` reads its result from the `v1` buffer, which is
never written when `s1` is empty, the distance between the empty string and
`"a"` is the `calloc` zero instead of 1, so the similarity of `("", "a")` is
1.0 while the similarity of `("a", "")` is 0.0: the claimed symmetry (and
the Levenshtein semantics of the distance itself) fails. -/
theorem C9_similarity_empty_bug_eval :
    _UT_levenshtein_distance [] [97] = 0
      ∧ _UT_calculate_similarity_ratio_q [] [97] = 1
      ∧ _UT_calculate_similarity_ratio_q [97] [] = 0
      ∧ _UT_calculate_similarity_ratio_q [] [97]
          ≠ _UT_calculate_similarity_ratio_q [97] [] := by
  have h1 : _UT_levenshtein_distance [] [97] = 0 := by decide
  have h2 : _UT_calculate_similarity_ratio_q [] [97] = 1 := by
    unfold _UT_calculate_similarity_ratio_q
    rw [if_neg (by simp)]
    rw [if_neg (by simp)]
    rw [h1]
    norm_num
  have h3 : _UT_calculate_similarity_ratio_q [97] [] = 0 := by
    unfold _UT_calculate_similarity_ratio_q
    rw [if_neg (by simp)]
    rw [if_neg (by simp)]
    rw [show _UT_levenshtein_distance [97] [] = 1 from by decide]
    norm_num
  exact ⟨h1, h2, h3, by rw [h2, h3]; norm_num⟩

/-- C10: the similarity used for death-test message matching is
case-insensitive for ASCII letters: the ratio of two strings equals the
ratio of their lowercased forms; two strings whose lowercased forms agree
have similarity 1.0; and a non-exact message check
(`is_exact_assert_check = false`, `min_similarity ≤ 1`) accepts an extracted
message that differs from the expected message only in ASCII letter case. -/
theorem C10_similarity_case_insensitive (s1 s2 m e out : List Nat) (de : _UT_DeathExpect) :
    (_UT_calculate_similarity_ratio_q (s1.map tolowerByte) (s2.map tolowerByte)
        = _UT_calculate_similarity_ratio_q s1 s2)
      ∧ (s1.map tolowerByte = s2.map tolowerByte →
          _UT_calculate_similarity_ratio_q s1 s2 = 1)
      ∧ (de.expected_assert_msg = some e → de.is_exact_assert_check = false →
          de.min_similarity ≤ 1 → _UT_extract_assert_message out = some m →
          m.map tolowerByte = e.map tolowerByte →
          _UT_validate_assert_message out de = true) := by
  refine ⟨ratio_lower_eq s1 s2, ratio_one_of_lower_eq s1 s2, ?_⟩
  intro hmsg hexact hmin hext hlow
  unfold _UT_validate_assert_message
  rw [hmsg, hext]
  simp only [hexact, Bool.false_eq_true, if_false]
  rw [ratio_one_of_lower_eq m e hlow]
  simpa using hmin

theorem C10_similarity_case_insensitive_witness :
    ((_UT_DeathExpect.mk 6 (-1) 0 (some (strBytes "hello")) false).expected_assert_msg
        = some (strBytes "hello"))
      ∧ _UT_extract_assert_message
          (strBytes "Assertion failed: x && \"HELLO\" on file f.c line 3")
          = some (strBytes "HELLO")
      ∧ (strBytes "HELLO").map tolowerByte = (strBytes "hello").map tolowerByte
      ∧ _UT_validate_assert_message
          (strBytes "Assertion failed: x && \"HELLO\" on file f.c line 3")
          (_UT_DeathExpect.mk 6 (-1) 0 (some (strBytes "hello")) false) = true :=
  ⟨rfl, by decide, by decide,
    (C10_similarity_case_insensitive [] [] (strBytes "HELLO") (strBytes "hello")
        (strBytes "Assertion failed: x && \"HELLO\" on file f.c line 3")
        (_UT_DeathExpect.mk 6 (-1) 0 (some (strBytes "hello")) false)).2.2
      rfl rfl zero_le_one (by decide) (by decide)⟩

/-! ## Claims C4, C6, C7: allocation tracking -/

theorem findSplit_some_spec (ptr : Nat) (l : List _UT_MemInfo) :
    ∀ (pre : List _UT_MemInfo) (c : _UT_MemInfo) (post : List _UT_MemInfo),
    findSplit ptr l = some (pre, c, post) →
    l = pre ++ c :: post ∧ c.address = ptr := by
  induction l with
  | nil =>
      intro pre c post h
      rw [show findSplit ptr ([] : List _UT_MemInfo) = none from rfl] at h
      exact Option.noConfusion h
  | cons d rest ih =>
      intro pre c post h
      unfold findSplit at h
      by_cases hd : d.address = ptr
      · rw [if_pos hd] at h
        simp only [Option.some.injEq, Prod.mk.injEq] at h
        obtain ⟨h1, h2, h3⟩ := h
        subst h1; subst h2; subst h3
        exact ⟨by simp, hd⟩
      · rw [if_neg hd] at h
        cases hrest : findSplit ptr rest with
        | none => rw [hrest] at h; simp at h
        | some t =>
            obtain ⟨p2, c2, q2⟩ := t
            rw [hrest] at h
            simp only [Option.map_some', Option.some.injEq, Prod.mk.injEq] at h
            obtain ⟨h1, h2, h3⟩ := h
            obtain ⟨hl, haddr⟩ := ih p2 c2 q2 hrest
            subst h1; subst h2; subst h3
            exact ⟨by simp [hl], haddr⟩

theorem findSplit_of_parts (ptr : Nat) (pre : List _UT_MemInfo) :
    ∀ (c : _UT_MemInfo) (post : List _UT_MemInfo), c.address = ptr →
    (∀ r ∈ pre, r.address ≠ ptr) →
    findSplit ptr (pre ++ c :: post) = some (pre, c, post) := by
  induction pre with
  | nil =>
      intro c post hc _
      simp [findSplit, hc]
  | cons d pre1 ih =>
      intro c post hc hpre
      have hd : d.address ≠ ptr := hpre d (by simp)
      simp only [List.cons_append, findSplit, if_neg hd, List.append_eq]
      rw [ih c post hc (fun r hr => hpre r (by simp [hr]))]
      rfl

theorem findSplit_eq_none (ptr : Nat) (l : List _UT_MemInfo)
    (h : ∀ r ∈ l, r.address ≠ ptr) : findSplit ptr l = none := by
  induction l with
  | nil => rfl
  | cons d rest ih =>
      simp only [findSplit, if_neg (h d (by simp))]
      rw [ih (fun r hr => h r (by simp [hr]))]
      rfl

theorem findSplit_isSome_of_mem (ptr : Nat) (l : List _UT_MemInfo)
    (h : ∃ c ∈ l, c.address = ptr) :
    ∃ t, findSplit ptr l = some t := by
  induction l with
  | nil => simp at h
  | cons d rest ih =>
      by_cases hd : d.address = ptr
      · exact ⟨([], d, rest), by simp [findSplit, hd]⟩
      · have h2 : ∃ c ∈ rest, c.address = ptr := by
          obtain ⟨c, hc, hca⟩ := h
          rcases List.mem_cons.mp hc with hcd | hcr
          · exact absurd (hcd ▸ hca) hd
          · exact ⟨c, hcr, hca⟩
        obtain ⟨⟨p2, c2, q2⟩, ht⟩ := ih h2
        exact ⟨(d :: p2, c2, q2), by simp [findSplit, hd, ht]⟩

theorem liveBytes_parts (st : TrackerState) (pre post : List _UT_MemInfo)
    (c : _UT_MemInfo) (h : st.mem_head = pre ++ c :: post) :
    liveBytes st = (pre.map (fun r => r.size)).sum + c.size + (post.map (fun r => r.size)).sum := by
  unfold liveBytes
  rw [h]
  simp
  omega

theorem inv_applyMemOp (st st1 : TrackerState) (op : MemOp)
    (h : applyMemOp st op = .ok st1)
    (hinv : st.total_bytes_allocated = st.total_bytes_freed + liveBytes st) :
    st1.total_bytes_allocated = st1.total_bytes_freed + liveBytes st1 := by
  have hfree : ∀ (ptr : Nat), _UT_free st ptr = .ok st1 →
      st1.total_bytes_allocated = st1.total_bytes_freed + liveBytes st1 := by
    intro ptr hf
    unfold _UT_free at hf
    by_cases hp : ptr = 0
    · rw [if_pos hp] at hf
      simp only [Except.ok.injEq] at hf
      subst hf
      exact hinv
    · rw [if_neg hp] at hf
      by_cases hsw : (!(st.mem_tracking_enabled && st.mem_tracking_is_active)) = true
      · rw [if_pos hsw] at hf
        simp only [Except.ok.injEq] at hf
        subst hf
        exact hinv
      · rw [if_neg hsw] at hf
        cases hfind : findSplit ptr st.mem_head with
        | none => rw [hfind] at hf; simp at hf
        | some t =>
            obtain ⟨pre, c, post⟩ := t
            rw [hfind] at hf
            simp only [Except.ok.injEq] at hf
            subst hf
            obtain ⟨hl, _⟩ := findSplit_some_spec ptr st.mem_head pre c post hfind
            have hlb := liveBytes_parts st pre post c hl
            simp only [liveBytes, List.map_append, List.sum_append]
            rw [hlb] at hinv
            omega
  cases op with
  | mallocOp addr size file line =>
      simp only [applyMemOp, Except.ok.injEq] at h
      subst h
      unfold _UT_malloc
      split
      · exact hinv
      · simp only [liveBytes, List.map_cons, List.sum_cons]
        unfold liveBytes at hinv
        omega
  | callocOp addr num size file line =>
      simp only [applyMemOp, Except.ok.injEq] at h
      subst h
      unfold _UT_calloc
      split
      · exact hinv
      · simp only [liveBytes, List.map_cons, List.sum_cons]
        unfold liveBytes at hinv
        omega
  | freeOp ptr =>
      simp only [applyMemOp] at h
      exact hfree ptr h
  | reallocOp old_ptr new_addr new_size file line =>
      simp only [applyMemOp] at h
      unfold _UT_realloc at h
      by_cases hp : old_ptr = 0
      · rw [if_pos hp] at h
        simp only [Except.ok.injEq] at h
        subst h
        unfold _UT_malloc
        split
        · exact hinv
        · simp only [liveBytes, List.map_cons, List.sum_cons]
          unfold liveBytes at hinv
          omega
      · rw [if_neg hp] at h
        by_cases hz : new_size = 0
        · rw [if_pos hz] at h
          exact hfree old_ptr h
        · rw [if_neg hz] at h
          by_cases hsw : (!(st.mem_tracking_enabled && st.mem_tracking_is_active)) = true
          · rw [if_pos hsw] at h
            simp only [Except.ok.injEq] at h
            subst h
            exact hinv
          · rw [if_neg hsw] at h
            cases hfind : findSplit old_ptr st.mem_head with
            | none => rw [hfind] at h; simp at h
            | some t =>
                obtain ⟨pre, c, post⟩ := t
                rw [hfind] at h
                simp only [Except.ok.injEq] at h
                subst h
                obtain ⟨hl, _⟩ := findSplit_some_spec old_ptr st.mem_head pre c post hfind
                have hlb := liveBytes_parts st pre post c hl
                simp only [liveBytes, List.map_append, List.map_cons, List.sum_append,
                  List.sum_cons]
                rw [hlb] at hinv
                by_cases hcmp : c.size < new_size
                · rw [if_pos hcmp, if_pos hcmp]
                  omega
                · rw [if_neg hcmp, if_neg hcmp]
                  omega

theorem runMemOps_inv (ops : List MemOp) : ∀ (st st1 : TrackerState),
    runMemOps st ops = .ok st1 →
    st.total_bytes_allocated = st.total_bytes_freed + liveBytes st →
    st1.total_bytes_allocated = st1.total_bytes_freed + liveBytes st1 := by
  induction ops with
  | nil =>
      intro st st1 h hinv
      simp only [runMemOps, Except.ok.injEq] at h
      subst h
      exact hinv
  | cons op rest ih =>
      intro st st1 h hinv
      unfold runMemOps at h
      cases happ : applyMemOp st op with
      | error e => rw [happ] at h; simp at h
      | ok st2 =>
          rw [happ] at h
          exact ih st2 st1 h (inv_applyMemOp st st2 op happ hinv)

/-- C4: at every point reachable by a sequence of `_UT_malloc`, `_UT_calloc`,
`_UT_realloc`, `_UT_free` calls from `_UT_init_memory_tracking` (no fatal
wrapper exit having occurred), `UT_total_bytes_allocated` minus
`UT_total_bytes_freed` equals the sum of the `size` fields of the records in
the tracker's live list. -/
theorem C4_live_bytes_invariant (ops : List MemOp) (st : TrackerState)
    (h : runMemOps _UT_init_memory_tracking ops = .ok st) :
    (st.total_bytes_allocated : Int) - (st.total_bytes_freed : Int)
      = (liveBytes st : Int) := by
  have hinit : _UT_init_memory_tracking.total_bytes_allocated
      = _UT_init_memory_tracking.total_bytes_freed + liveBytes _UT_init_memory_tracking := by
    rfl
  have := runMemOps_inv ops _UT_init_memory_tracking st h hinit
  omega

theorem C4_live_bytes_invariant_witness :
    runMemOps _UT_init_memory_tracking
        [MemOp.mallocOp 1000 100 [] 0, MemOp.callocOp 2000 4 8 [] 0, MemOp.freeOp 1000]
      = Except.ok (TrackerState.mk [⟨2000, 32, [], 0, false⟩] 2 1 132 100 true true true)
      ∧ ((TrackerState.mk [⟨2000, 32, [], 0, false⟩] 2 1 132 100 true true true
            : TrackerState).total_bytes_allocated : Int)
          - ((TrackerState.mk [⟨2000, 32, [], 0, false⟩] 2 1 132 100 true true
              true : TrackerState).total_bytes_freed : Int)
        = (liveBytes (TrackerState.mk [⟨2000, 32, [], 0, false⟩] 2 1 132 100 true true true)
            : Int) :=
  ⟨rfl, C4_live_bytes_invariant
      [MemOp.mallocOp 1000 100 [] 0, MemOp.callocOp 2000 4 8 [] 0, MemOp.freeOp 1000]
      _ rfl⟩

/-- C6: with tracking enabled and active, releasing NULL through `_UT_free`
is a silent no-op; releasing a tracked address removes exactly its (first
matching) record, increments `UT_free_count` by one and adds the recorded
size to `UT_total_bytes_freed`; releasing a non-NULL address with no record
terminates the child with exit code 122. -/
theorem C6_free_semantics (st : TrackerState) (ptr : Nat)
    (pre post : List _UT_MemInfo) (c : _UT_MemInfo)
    (hen : st.mem_tracking_enabled = true) (hac : st.mem_tracking_is_active = true) :
    (_UT_free st 0 = .ok st)
      ∧ (st.mem_head = pre ++ c :: post → c.address = ptr → ptr ≠ 0 →
          (∀ r ∈ pre, r.address ≠ ptr) →
          _UT_free st ptr = .ok ({ st with
            mem_head := pre ++ post,
            total_bytes_freed := st.total_bytes_freed + c.size,
            free_count := st.free_count + 1 }))
      ∧ (ptr ≠ 0 → (∀ r ∈ st.mem_head, r.address ≠ ptr) →
          _UT_free st ptr = .error 122) := by
  refine ⟨by rw [_UT_free, if_pos rfl], ?_, ?_⟩
  · intro hsplit haddr hptr hfirst
    rw [_UT_free, if_neg hptr, if_neg (by rw [hen, hac]; simp)]
    rw [hsplit, findSplit_of_parts ptr pre c post haddr hfirst]
  · intro hptr hnone
    rw [_UT_free, if_neg hptr, if_neg (by rw [hen, hac]; simp)]
    rw [findSplit_eq_none ptr st.mem_head hnone]

theorem C6_free_semantics_witness :
    ((TrackerState.mk [⟨1000, 64, [], 0, false⟩] 1 0 64 0 true true true
        : TrackerState).mem_tracking_enabled = true)
      ∧ _UT_free (TrackerState.mk [⟨1000, 64, [], 0, false⟩] 1 0 64 0 true true true) 0
          = .ok (TrackerState.mk [⟨1000, 64, [], 0, false⟩] 1 0 64 0 true true true)
      ∧ _UT_free (TrackerState.mk [⟨1000, 64, [], 0, false⟩] 1 0 64 0 true true true) 1000
          = .ok (TrackerState.mk [] 1 1 64 64 true true true)
      ∧ _UT_free (TrackerState.mk [⟨1000, 64, [], 0, false⟩] 1 0 64 0 true true true) 7
          = .error 122 := by
  have h := C6_free_semantics
    (TrackerState.mk [⟨1000, 64, [], 0, false⟩] 1 0 64 0 true true true) 1000
    [] [] ⟨1000, 64, [], 0, false⟩ rfl rfl
  have h7 := C6_free_semantics
    (TrackerState.mk [⟨1000, 64, [], 0, false⟩] 1 0 64 0 true true true) 7
    [] [] ⟨1000, 64, [], 0, false⟩ rfl rfl
  refine ⟨rfl, h.1, ?_, ?_⟩
  · have h2 := h.2.1 rfl rfl (by omega) (by simp)
    simpa using h2
  · exact h7.2.2 (by omega) (by decide)

/-- C7: a successful `_UT_realloc` of a tracked allocation of size X > 0 to
size Y > 0 (tracking enabled and active) adds `Y - X` (truncated at 0, i.e.
max(0, Y-X)) to `UT_total_bytes_allocated` and `X - Y` (truncated at 0) to
`UT_total_bytes_freed`, updates the existing record in place to the new
address and size, and leaves the record count unchanged. -/
theorem C7_realloc_accounting (st : TrackerState) (ptr new_addr new_size : Nat)
    (file : List Nat) (line : Int) (pre post : List _UT_MemInfo) (c : _UT_MemInfo)
    (hen : st.mem_tracking_enabled = true) (hac : st.mem_tracking_is_active = true)
    (hsplit : st.mem_head = pre ++ c :: post) (haddr : c.address = ptr)
    (hptr : ptr ≠ 0) (hfirst : ∀ r ∈ pre, r.address ≠ ptr)
    (hX : 0 < c.size) (hY : 0 < new_size) :
    _UT_realloc st ptr new_addr new_size file line
      = .ok { st with
          mem_head := pre ++ ⟨new_addr, new_size, file, line, c.is_baseline⟩ :: post,
          total_bytes_allocated := st.total_bytes_allocated + (new_size - c.size),
          total_bytes_freed := st.total_bytes_freed + (c.size - new_size) }
      ∧ (pre ++ (⟨new_addr, new_size, file, line, c.is_baseline⟩ : _UT_MemInfo) :: post).length
          = st.mem_head.length := by
  constructor
  · rw [_UT_realloc, if_neg hptr, if_neg (by omega), if_neg (by rw [hen, hac]; simp)]
    rw [hsplit, findSplit_of_parts ptr pre c post haddr hfirst]
    simp only [Except.ok.injEq]
    by_cases hcmp : c.size < new_size
    · rw [if_pos hcmp, if_pos hcmp, show c.size - new_size = 0 from by omega]
      simp
    · rw [if_neg hcmp, if_neg hcmp, show new_size - c.size = 0 from by omega]
      simp
  · rw [hsplit]
    simp

theorem C7_realloc_accounting_witness :
    _UT_realloc (TrackerState.mk [⟨1000, 64, [], 0, false⟩] 1 0 64 0 true true true)
        1000 1500 40 (strBytes "g.c") 9
      = .ok (TrackerState.mk [⟨1500, 40, strBytes "g.c", 9, false⟩] 1 0 64 24 true true true)
      ∧ ((TrackerState.mk [⟨1000, 64, [], 0, false⟩] 1 0 64 0 true true true
          : TrackerState).mem_head.length = 1) := by
  have h := C7_realloc_accounting
    (TrackerState.mk [⟨1000, 64, [], 0, false⟩] 1 0 64 0 true true true)
    1000 1500 40 (strBytes "g.c") 9 [] [] ⟨1000, 64, [], 0, false⟩
    rfl rfl rfl rfl (by omega) (by simp) (by decide) (by decide)
  refine ⟨?_, rfl⟩
  have h1 := h.1
  simpa using h1

/-! ## Claim C5: leak checking -/

theorem not_contains_of_missing (e a : List Nat) (b : Nat) (hb : b ∈ e) (hn : b ∉ a) :
    ∀ l r, a ≠ l ++ e ++ r := by
  intro l r hcontra
  apply hn
  rw [hcontra]
  simp [List.mem_append, hb]

set_option maxRecDepth 40000 in
/-- C5 counterexample: with four leaked records whose formatted entries
overflow the 1024-byte `leak_details` buffer, `_UT_check_for_leaks` still
records exactly one failure, but `strncat` truncation makes its actual text
end at the buffer limit: the fourth leaked block's entry (whose file name
holds byte 90) appears nowhere in it, so the text does NOT summarize every
leaked block. -/
theorem C5_leak_summary_counterexample :
    ((_UT_check_for_leaks cexSt emptyTestResult).2.failures
        = [⟨strBytes "Memory Tracker", 0, strBytes "No memory leaks",
            strBytes "0 un-freed allocations", leakDetails cexSt.mem_head⟩])
      ∧ cexC4 ∈ cexSt.mem_head
      ∧ cexC4.is_baseline = false
      ∧ ∀ l r, leakDetails cexSt.mem_head ≠ l ++ leakEntry cexC4 ++ r :=
  ⟨rfl, by decide, rfl,
    not_contains_of_missing (leakEntry cexC4) (leakDetails cexSt.mem_head) 90
      (by decide) (by decide)⟩

theorem leakDetails_no_truncation (records : List _UT_MemInfo) :
    ∀ (acc : List Nat),
    (∀ c ∈ records, c.is_baseline = false → (leakEntry c).length ≤ 255) →
    acc.length + ((records.filter (fun c => !c.is_baseline)).map
        (fun c => (leakEntry c).length)).sum ≤ 1023 →
    records.foldl
        (fun acc c =>
          if c.is_baseline then acc
          else acc ++ (((leakEntry c).take 255).take (1023 - acc.length))) acc
      = acc ++ ((records.filter (fun c => !c.is_baseline)).map leakEntry).flatten := by
  induction records with
  | nil => intro acc _ _; simp
  | cons c rest ih =>
      intro acc hle hsum
      by_cases hb : c.is_baseline = true
      · have hfneg : (!c.is_baseline) = false := by rw [hb]; rfl
        simp only [List.foldl_cons, if_pos hb]
        simp only [List.filter_cons, hfneg, Bool.false_eq_true, if_false] at hsum ⊢
        exact ih acc (fun d hd hdb => hle d (by simp [hd]) hdb) hsum
      · have hbf : c.is_baseline = false := by
          cases hcb : c.is_baseline
          · rfl
          · exact absurd hcb hb
        have hfpos : (!c.is_baseline) = true := by rw [hbf]; rfl
        have he : (leakEntry c).length ≤ 255 := hle c (by simp) hbf
        simp only [List.filter_cons, hfpos, eq_self_iff_true, if_true] at hsum ⊢
        simp only [List.map_cons, List.sum_cons] at hsum
        simp only [List.foldl_cons, if_neg hb]
        rw [List.take_of_length_le he]
        rw [List.take_of_length_le (show (leakEntry c).length ≤ 1023 - acc.length by omega)]
        rw [ih (acc ++ leakEntry c) (fun d hd hdb => hle d (by simp [hd]) hdb)
          (by simp only [List.length_append]; omega)]
        simp [List.append_assoc]

theorem markBaseline_flags (st : TrackerState) :
    (UT_mark_memory_as_baseline st).mem_tracking_enabled = st.mem_tracking_enabled
      ∧ (UT_mark_memory_as_baseline st).mem_tracking_is_active
          = st.mem_tracking_is_active := by
  unfold UT_mark_memory_as_baseline
  split <;> simp

theorem markBaseline_addresses (st : TrackerState) :
    (UT_mark_memory_as_baseline st).mem_head.map (fun c => c.address)
      = st.mem_head.map (fun c => c.address) := by
  unfold UT_mark_memory_as_baseline
  split
  · rfl
  · simp only [List.map_map]
    apply List.map_congr_left
    intro c _
    simp only [Function.comp]
    split <;> rfl

/-- C5 (amended): `_UT_check_for_leaks` records an assertion failure iff at
least one live record has a clear baseline flag, and in that case exactly
one failure carrying the `leak_details` text; that text lists the formatted
entry of every leaked block (size, file, line) PROVIDED the entries fit the
buffers (each at most 255 bytes, the 255-byte cap of the `leak_info`
`snprintf`, and all of them within the 1023 content bytes of `leak_details`;
beyond that `strncat` truncates and later entries are cut or dropped).
Records flagged by `UT_mark_memory_as_baseline` are not counted as leaks
but remain in the tracker with unchanged addresses, so a later `_UT_free`
of a baselined address still succeeds. -/
theorem C5_leak_check_amended (st : TrackerState) (res : _UT_TestResult) (ptr : Nat) :
    (st.mem_head.any (fun c => !c.is_baseline) = false →
        _UT_check_for_leaks st res = ({ st with mem_tracking_enabled := true }, res))
      ∧ (st.mem_head.any (fun c => !c.is_baseline) = true →
          (_UT_check_for_leaks st res).2.failures
            = ⟨strBytes "Memory Tracker", 0, strBytes "No memory leaks",
                strBytes "0 un-freed allocations", leakDetails st.mem_head⟩
              :: res.failures)
      ∧ ((∀ c ∈ st.mem_head, c.is_baseline = false → (leakEntry c).length ≤ 255) →
          21 + ((st.mem_head.filter (fun c => !c.is_baseline)).map
              (fun c => (leakEntry c).length)).sum ≤ 1023 →
          ∀ c ∈ st.mem_head, c.is_baseline = false →
          ∃ l r, leakDetails st.mem_head = l ++ leakEntry c ++ r)
      ∧ ((UT_mark_memory_as_baseline st).mem_head.map (fun c => c.address)
          = st.mem_head.map (fun c => c.address))
      ∧ (st.mem_tracking_enabled = true → st.mem_tracking_is_active = true →
          ptr ≠ 0 → (∃ c ∈ st.mem_head, c.address = ptr) →
          ∃ st2, _UT_free (UT_mark_memory_as_baseline st) ptr = .ok st2) := by
  refine ⟨?_, ?_, ?_, markBaseline_addresses st, ?_⟩
  · intro hany
    unfold _UT_check_for_leaks
    rw [hany]
    rfl
  · intro hany
    unfold _UT_check_for_leaks
    rw [hany]
    rfl
  · intro hle hsum c hc hcb
    have hdetails : leakDetails st.mem_head
        = strBytes "Memory leak detected."
          ++ ((st.mem_head.filter (fun c => !c.is_baseline)).map leakEntry).flatten := by
      unfold leakDetails
      exact leakDetails_no_truncation st.mem_head (strBytes "Memory leak detected.")
        hle (by rw [show (strBytes "Memory leak detected.").length = 21 from rfl]; omega)
    have hcf : c ∈ st.mem_head.filter (fun c => !c.is_baseline) :=
      List.mem_filter.mpr ⟨hc, by rw [hcb]; rfl⟩
    obtain ⟨s, t, hst⟩ := List.append_of_mem hcf
    rw [hdetails, hst]
    simp only [List.map_append, List.map_cons, List.flatten_append, List.flatten_cons]
    exact ⟨strBytes "Memory leak detected." ++ (s.map leakEntry).flatten,
      (t.map leakEntry).flatten, by simp [List.append_assoc]⟩
  · intro hen hac hptr hex
    obtain ⟨c, hc, hca⟩ := hex
    have hmem : ptr ∈ (UT_mark_memory_as_baseline st).mem_head.map (fun c => c.address) := by
      rw [markBaseline_addresses]
      exact List.mem_map.mpr ⟨c, hc, hca⟩
    obtain ⟨c2, hc2, hc2a⟩ := List.mem_map.mp hmem
    obtain ⟨t, ht⟩ := findSplit_isSome_of_mem ptr _ ⟨c2, hc2, hc2a⟩
    obtain ⟨p2, cc, q2⟩ := t
    have hflags : (!((UT_mark_memory_as_baseline st).mem_tracking_enabled
        && (UT_mark_memory_as_baseline st).mem_tracking_is_active)) = false := by
      rw [(markBaseline_flags st).1, (markBaseline_flags st).2, hen, hac]
      rfl
    refine ⟨{ (UT_mark_memory_as_baseline st) with
        mem_head := p2 ++ q2,
        total_bytes_freed := (UT_mark_memory_as_baseline st).total_bytes_freed + cc.size,
        free_count := (UT_mark_memory_as_baseline st).free_count + 1 }, ?_⟩
    rw [_UT_free, if_neg hptr, if_neg (by simp [hflags]), ht]

theorem C5_leak_check_amended_witness :
    ((TrackerState.mk [⟨1000, 100, strBytes "x.c", 42, false⟩] 1 0 100 0 true true true
        : TrackerState).mem_head.any (fun c => !c.is_baseline) = true)
      ∧ (_UT_check_for_leaks
            (TrackerState.mk [⟨1000, 100, strBytes "x.c", 42, false⟩] 1 0 100 0 true true true)
            emptyTestResult).2.failures
          = [⟨strBytes "Memory Tracker", 0, strBytes "No memory leaks",
              strBytes "0 un-freed allocations",
              leakDetails [⟨1000, 100, strBytes "x.c", 42, false⟩]⟩]
      ∧ (∃ l r, leakDetails [⟨1000, 100, strBytes "x.c", 42, false⟩]
            = l ++ leakEntry ⟨1000, 100, strBytes "x.c", 42, false⟩ ++ r)
      ∧ (∃ st2, _UT_free (UT_mark_memory_as_baseline
            (TrackerState.mk [⟨1000, 100, strBytes "x.c", 42, false⟩] 1 0 100 0 true true true))
            1000 = .ok st2) := by
  have h := C5_leak_check_amended
    (TrackerState.mk [⟨1000, 100, strBytes "x.c", 42, false⟩] 1 0 100 0 true true true)
    emptyTestResult 1000
  refine ⟨by decide, h.2.1 (by decide), ?_, ?_⟩
  · exact h.2.2.1 (by decide) (by decide) ⟨1000, 100, strBytes "x.c", 42, false⟩
      (by decide) rfl
  · exact h.2.2.2.2 rfl rfl (by omega)
      ⟨⟨1000, 100, strBytes "x.c", 42, false⟩, by decide, rfl⟩
